import Mathlib

/-!
# MRC / CCP4 / EMDB map decoding

A shallow embedding of `src/mrc/mrcfile.cpp` and `src/mrc/mrcheader.cpp`, and theorems about
the decoder `MrcFileView` they implement.

* A file is a list of bytes with a position indicator (`FileStream`). The call `fread` copies
  the bytes that are left, at most as many as the destination holds, into the front of the
  destination and advances the position by the number of bytes copied; the rest of the
  destination keeps its content. The source never looks at the value `fread` returns.
* Scalar objects are handled through their object representation: `sizeof(T)` bytes in the
  byte order of the reading machine (`Endian`). Values of type `int` are `Int`, values of type
  `float` and `double` are their IEEE 754 bit patterns (`Nat`).
* Floating-point arithmetic (the product of the cell angles, the value conversions in the
  byte-swap code) is IEEE 754 binary32 / binary64 with round-to-nearest-even, computed
  exactly on `sign * mantissa * 2 ^ exponent`.
* Where C++ leaves the result open the model takes what an x86-64 machine does: `int`
  arithmetic keeps the low 32 bits (`wrap32`), a floating value that does not fit the integer
  type converts to the most negative integer (`float_to_int`).
* Objects that the source leaves uninitialised (`number_columns`, `numBytesExtendedHeader`,
  `labelToRead`, the header before `setEMDBDefaults`) are parameters (`Uninit`, `h0`).
* The only way a decode ends early is `std::length_error` from a `resize` with a negative
  count (`Fault`); memory is taken to be sufficient for every non-negative count.
-/

namespace Mrc

/-! ## Bytes and object representations -/

/-- One byte of a file or of an object representation. -/
abbrev Byte := Fin 256

/-- Byte order of the reading machine. -/
inductive Endian
  | little
  | big
  deriving DecidableEq

/-- Value of a byte string whose first byte is the least significant one. -/
def le_val : List Byte → Nat
  | [] => 0
  | b :: bs => b.val + 256 * le_val bs

/-- The `n` low-order bytes of `w`, least significant byte first. -/
def le_bytes : Nat → Nat → List Byte
  | 0, _ => []
  | n + 1, w => ⟨w % 256, Nat.mod_lt w (by decide)⟩ :: le_bytes n (w / 256)

/-- Unsigned value of an object representation on the reading machine. -/
def host_val (host : Endian) (bs : List Byte) : Nat :=
  match host with
  | .little => le_val bs
  | .big => le_val bs.reverse

/-- Object representation (`n` bytes) of the unsigned value `w` on the reading machine. -/
def host_bytes (host : Endian) (n w : Nat) : List Byte :=
  match host with
  | .little => le_bytes n w
  | .big => (le_bytes n w).reverse

/-- Two's complement reading of the low `bits` bits of `w`. -/
def to_signed (bits w : Nat) : Int :=
  if w % 2 ^ bits < 2 ^ (bits - 1) then ((w % 2 ^ bits : Nat) : Int)
  else ((w % 2 ^ bits : Nat) : Int) - ((2 ^ bits : Nat) : Int)

/-- Two's complement bit pattern (`bits` wide) of `v`. -/
def to_unsigned (bits : Nat) (v : Int) : Nat :=
  (v % ((2 ^ bits : Nat) : Int)).toNat

/-- Result of `int` arithmetic on a two's complement machine: the low 32 bits. -/
def wrap32 (v : Int) : Int :=
  to_signed 32 (to_unsigned 32 v)

/-- `std::vector::resize(n)` / `std::string::resize(n)` with value-initialised new elements. -/
def resize {α : Type} (xs : List α) (n : Nat) (d : α) : List α :=
  xs.take n ++ List.replicate (n - xs.length) d

/-! ## IEEE 754 values -/

/-- An IEEE 754 binary interchange format: stored mantissa bits and exponent bits. -/
structure FloatFormat where
  mant : Nat
  expo : Nat

/-- C++ `float`. -/
def binary32 : FloatFormat := ⟨23, 8⟩

/-- C++ `double`. -/
def binary64 : FloatFormat := ⟨52, 11⟩

/-- Exponent of the least significant mantissa bit of the subnormal numbers
(`-149` for binary32, `-1074` for binary64). -/
def FloatFormat.qmin (F : FloatFormat) : Int :=
  2 - ((2 ^ (F.expo - 1) : Nat) : Int) - (F.mant : Int)

/-- A floating-point datum: NaN, an infinity, or the number `(-1)^neg * m * 2^e`. -/
inductive FVal
  | nan
  | inf (neg : Bool)
  | fin (neg : Bool) (m : Nat) (e : Int)
  deriving DecidableEq

/-- The datum a bit pattern stands for. -/
def FloatFormat.decode (F : FloatFormat) (bits : Nat) : FVal :=
  let frac := bits % 2 ^ F.mant
  let ex := (bits / 2 ^ F.mant) % 2 ^ F.expo
  let neg := decide ((bits / 2 ^ (F.mant + F.expo)) % 2 = 1)
  if ex = 2 ^ F.expo - 1 then (if frac = 0 then .inf neg else .nan)
  else if ex = 0 then .fin neg frac F.qmin
  else .fin neg (2 ^ F.mant + frac) (F.qmin + ((ex - 1 : Nat) : Int))

/-- The quotient `m / 2^sh` rounded to the nearest integer, ties to even. -/
def round_shift (m sh : Nat) : Nat :=
  let q := m / 2 ^ sh
  let r := m % 2 ^ sh
  if 2 * r > 2 ^ sh ∨ (2 * r = 2 ^ sh ∧ q % 2 = 1) then q + 1 else q

/-- Number of binary digits of `n`, by halving at most `fuel` times. -/
def bit_length_aux : Nat → Nat → Nat
  | 0, _ => 0
  | fuel + 1, n => if n = 0 then 0 else bit_length_aux fuel (n / 2) + 1

/-- Number of binary digits of `n`: the least `k` with `n < 2^k`. -/
def bit_length (n : Nat) : Nat :=
  bit_length_aux n n

/-- Bit pattern of the number `(-1)^neg * m * 2^e` rounded to nearest (ties to even);
magnitudes beyond the largest finite number become infinity. -/
def FloatFormat.encode (F : FloatFormat) (neg : Bool) (m : Nat) (e : Int) : Nat :=
  let sign := if neg then 2 ^ (F.mant + F.expo) else 0
  if m = 0 then sign
  else
    let top : Int := ((bit_length m - 1 : Nat) : Int) + e
    let q : Int := max (top - (F.mant : Int)) F.qmin
    let M := if q ≤ e then m * 2 ^ (e - q).toNat else round_shift m (q - e).toNat
    let mag := (q - F.qmin).toNat * 2 ^ F.mant + M
    sign + min mag ((2 ^ F.expo - 1) * 2 ^ F.mant)

/-- Floating-point product in format `F` (operator `*` on two `float`s for binary32). -/
def FloatFormat.mul (F : FloatFormat) : FVal → FVal → FVal
  | .nan, _ => .nan
  | _, .nan => .nan
  | .inf s, .inf t => .inf (xor s t)
  | .inf s, .fin t m _ => if m = 0 then .nan else .inf (xor s t)
  | .fin s m _, .inf t => if m = 0 then .nan else .inf (xor s t)
  | .fin s m e, .fin t n k => F.decode (F.encode (xor s t) (m * n) (e + k))

/-- Operator `<` on floating-point data (exact; false when an operand is NaN). -/
def FVal.lt : FVal → FVal → Bool
  | .nan, _ => false
  | _, .nan => false
  | .inf s, .inf t => s && !t
  | .inf s, .fin _ _ _ => s
  | .fin _ _ _, .inf t => !t
  | .fin s m e, .fin t n k =>
    let e0 := min e k
    let x : Int := (if s then -1 else 1) * ((m * 2 ^ (e - e0).toNat : Nat) : Int)
    let y : Int := (if t then -1 else 1) * ((n * 2 ^ (k - e0).toNat : Nat) : Int)
    decide (x < y)

/-- Integral part of a finite datum (rounding toward zero). -/
def FVal.trunc : FVal → Option Int
  | .fin neg m e =>
    let mag : Nat := if 0 ≤ e then m * 2 ^ e.toNat else m / 2 ^ (-e).toNat
    some (if neg then -(mag : Int) else (mag : Int))
  | _ => none

/-- Conversion of a floating value to a signed integer of `w` bits: `int32_t(x)`,
`int64_t(x)`.  The value is truncated toward zero; when the result does not fit (C++ leaves
this undefined) the x86-64 conversion instructions give the most negative integer. -/
def float_to_int (F : FloatFormat) (w : Nat) (bits : Nat) : Int :=
  match (F.decode bits).trunc with
  | some v =>
    if -((2 ^ (w - 1) : Nat) : Int) ≤ v ∧ v < ((2 ^ (w - 1) : Nat) : Int) then v
    else -((2 ^ (w - 1) : Nat) : Int)
  | none => -((2 ^ (w - 1) : Nat) : Int)

/-- Conversion of an unsigned integer to floating point (rounded to nearest). -/
def uint_to_float (F : FloatFormat) (n : Nat) : Nat :=
  F.encode false n 0

/-- The `double` literal `1e-5`: `0x3EE4F8B588E368F1`. -/
def double_1e_5 : Nat := 0x3EE4F8B588E368F1

/-! ## The file and `fread` -/

/-- An open `FILE*`: the content of the file and the file position indicator. -/
structure FileStream where
  bytes : List Byte
  pos : Nat

/-- The call `fread(buf, 1, |buf|, f)` (equally `fread(buf, |buf|, 1, f)`): the bytes left
in the file, at most `|buf|` of them, replace the front of `buf`; the position advances by
their number. Returns the new content of `buf` and the stream. -/
def fread (buf : List Byte) (f : FileStream) : List Byte × FileStream :=
  let got := (f.bytes.drop f.pos).take buf.length
  (got ++ buf.drop got.length, { f with pos := f.pos + got.length })

/-- The types `read<T>` is instantiated at, or is claimed to support. -/
inductive CType
  | int16_t
  | int32_t
  | float
  | double
  | char
  deriving DecidableEq

/-- The value of `sizeof(T)`. -/
def CType.sizeof : CType → Nat
  | .int16_t => 2
  | .int32_t => 4
  | .float => 4
  | .double => 8
  | .char => 1

/-- The expression assigned to `*result` in the `double` branch of `read`, on the bit
pattern of `int_tmp`. -/
def swap_expr64 (u : Nat) : Nat :=
  ((u &&& 0xFF00000000000000) >>> (7 * 8) ||| (u &&& 0x00FF000000000000) >>> (5 * 8) |||
   (u &&& 0x0000FF0000000000) >>> (3 * 8) ||| (u &&& 0x000000FF00000000) >>> (1 * 8) |||
   (u &&& 0x00000000FF000000) <<< (1 * 8) ||| (u &&& 0x0000000000FF0000) <<< (3 * 8) |||
   (u &&& 0x000000000000FF00) <<< (5 * 8) ||| (u &&& 0x00000000000000FF) <<< (7 * 8)) % 2 ^ 64

/-- The expression assigned to `*result` in the `float` branch of `read`, on the bit
pattern of `int_tmp`. -/
def swap_expr32 (u : Nat) : Nat :=
  ((u &&& 0xFF000000) >>> 24 ||| (u &&& 0x00FF0000) >>> 8 ||| (u &&& 0x0000FF00) <<< 8 |||
   (u &&& 0x000000FF) <<< 24) % 2 ^ 32

/-- The expression assigned to `*result` in the `int16_t` branch of `read`, on the bit
pattern of `int_tmp` promoted to `int`. -/
def swap_expr16 (u : Nat) : Nat :=
  (u &&& 0xFF00) >>> 8 ||| (u &&& 0x00FF) <<< 8

/-- What `read<T>` does to `*result` after the `fread` when `header_.swap_bytes` is set.
Values are object bit patterns. Only `double`, `float` and `int16_t` have a branch. -/
def swap_value (T : CType) (v : Nat) : Nat :=
  let v :=
    if T = .double then
      let int_tmp : Int := float_to_int binary64 64 v
      uint_to_float binary64 (swap_expr64 (to_unsigned 64 int_tmp))
    else v
  let v :=
    if T = .float then
      let int_tmp : Int := float_to_int binary32 32 v
      uint_to_float binary32 (swap_expr32 (to_unsigned 32 int_tmp))
    else v
  let v :=
    if T = .int16_t then
      let int_tmp : Int := to_signed 16 v
      swap_expr16 (to_unsigned 32 int_tmp) % 2 ^ 16
    else v
  v

/-- The template `MrcFileView::Impl::read<T>(T * result)`: `result` is the bit pattern of
`*result` before the call; returns the bit pattern after it and the stream. -/
def read (host : Endian) (T : CType) (swap_bytes : Bool) (result : Nat) (file_ : FileStream) :
    Nat × FileStream :=
  let r := fread (host_bytes host T.sizeof result) file_
  let v := host_val host r.1
  (if swap_bytes then swap_value T v else v, r.2)

/-- Instantiation `read<int>` / `read<int32_t>` on `int` values. -/
def read_int (host : Endian) (swap_bytes : Bool) (result : Int) (file_ : FileStream) :
    Int × FileStream :=
  let r := read host .int32_t swap_bytes (to_unsigned 32 result) file_
  (to_signed 32 r.1, r.2)

/-- Instantiation `read<float>`. -/
def read_float (host : Endian) (swap_bytes : Bool) (result : Nat) (file_ : FileStream) :
    Nat × FileStream :=
  read host .float swap_bytes result file_

/-- Instantiation `read<char>`. -/
def read_char (host : Endian) (swap_bytes : Bool) (result : Byte) (file_ : FileStream) :
    Byte × FileStream :=
  let r := read host .char swap_bytes result.val file_
  (⟨r.1 % 256, Nat.mod_lt r.1 (by decide)⟩, r.2)

/-- The loop `for (auto && i : a) { read(&i); }` over `float` elements. -/
def read_floats (host : Endian) (swap_bytes : Bool) :
    List Nat → FileStream → List Nat × FileStream
  | [], f => ([], f)
  | x :: xs, f =>
    let r := read_float host swap_bytes x f
    let rs := read_floats host swap_bytes xs r.2
    (r.1 :: rs.1, rs.2)

/-- The loop `for (size_t i = 0; i < 4; i++) { read(&header_.format_identifier[i]); }`. -/
def read_chars (host : Endian) (swap_bytes : Bool) :
    List Byte → FileStream → List Byte × FileStream
  | [], f => ([], f)
  | x :: xs, f =>
    let r := read_char host swap_bytes x f
    let rs := read_chars host swap_bytes xs r.2
    (r.1 :: rs.1, rs.2)

/-- The function `MrcFileView::Impl::read_int32_ivec_`. -/
def read_int32_ivec_ (host : Endian) (swap_bytes : Bool) (result : Int × Int × Int)
    (file_ : FileStream) : (Int × Int × Int) × FileStream :=
  let x := read_int host swap_bytes result.1 file_
  let y := read_int host swap_bytes result.2.1 x.2
  let z := read_int host swap_bytes result.2.2 y.2
  ((x.1, y.1, z.1), z.2)

/-- The function `MrcFileView::Impl::read_float32_rvec_`. -/
def read_float32_rvec_ (host : Endian) (swap_bytes : Bool) (result : Nat × Nat × Nat)
    (file_ : FileStream) : (Nat × Nat × Nat) × FileStream :=
  let x := read_float host swap_bytes result.1 file_
  let y := read_float host swap_bytes result.2.1 x.2
  let z := read_float host swap_bytes result.2.2 y.2
  ((x.1, y.1, z.1), z.2)

/-- The function `MrcFileView::Impl::colummn_row_section_order_valid_`: equality of the two
`std::set<int>`. -/
def colummn_row_section_order_valid_ (crs_to_xyz : Int × Int × Int) : Bool :=
  decide (({crs_to_xyz.1, crs_to_xyz.2.1, crs_to_xyz.2.2} : Finset Int) = {0, 1, 2})

/-! ## The header record -/

/-- A `std::string` or `std::vector<char>`: its characters. -/
abbrev CString := List Byte

/-- The characters of a string literal. -/
def chars (s : String) : CString :=
  s.toList.map (fun c => ⟨c.toNat % 256, Nat.mod_lt c.toNat (by decide)⟩)

/-- The struct `MrcHeader` of `mrcheader.h`. `float` members hold binary32 bit patterns,
`std::array<T, 3>` members are triples, longer arrays are lists. -/
structure MrcHeader where
  swap_bytes : Bool
  space_group : Int
  mrc_data_mode : Int
  machine_stamp : Int
  format_identifier : CString
  num_labels : Int
  labels : List CString
  cell_length : Nat × Nat × Nat
  cell_angles : Nat × Nat × Nat
  crs_to_xyz : Int × Int × Int
  num_crs : Int × Int × Int
  extend : Int × Int × Int
  crs_start : Int × Int × Int
  min_value : Nat
  max_value : Nat
  mean_value : Nat
  rms_value : Nat
  is_crystallographic : Bool
  has_skew_matrix : Bool
  skew_matrix : List Nat
  skew_translation : Nat × Nat × Nat
  num_bytes_extened_header : Int
  extended_header : List Byte
  extraskew : List Nat
  extra : List Nat

/-- The local `empty80CharLabel` of `setEMDBDefaults`. -/
def empty80CharLabel : CString :=
  chars "                                                                                "

/-- The local `emdbCustomLabel` of `setEMDBDefaults`. -/
def emdbCustomLabel : CString :=
  chars "::::EMDataBank.org::::EMD-xxxx::::Own Data Following EMDB convention::::::::::::"

/-- The function `MrcHeader::setEMDBDefaults`. Members it does not assign (`num_crs`, `extend`,
`cell_length`, `cell_angles`, the four statistics) keep what `h` holds. -/
def setEMDBDefaults (h : MrcHeader) : MrcHeader :=
  { h with
    swap_bytes := false
    space_group := 1
    mrc_data_mode := 2
    num_bytes_extened_header := 0
    has_skew_matrix := false
    crs_start := (0, 0, 0)
    crs_to_xyz := (0, 1, 2)
    skew_matrix := [0, 0, 0, 0, 0, 0, 0, 0, 0]
    skew_translation := (0, 0, 0)
    is_crystallographic := false
    extra := List.replicate 15 0
    extraskew := List.replicate 13 0
    format_identifier := chars "MAP "
    machine_stamp := 1145110528
    labels := emdbCustomLabel :: List.replicate 9 empty80CharLabel
    num_labels := 1
    extended_header := [] }

/-! ## The decoder -/

/-- The class `MrcFileView::Impl`: its data members (`filetypes`, a constant, is left out). -/
structure Impl where
  file_ : FileStream
  file_size_ : Nat
  header_ : MrcHeader
  data_ : List Nat

/-- Values of the objects the decoder declares without initialising them. -/
structure Uninit where
  number_columns : Int
  numBytesExtendedHeader : Int
  labelToRead : Nat → Nat → Byte

/-- What ends a decode early: `std::length_error`, thrown by `resize` when the `int`
argument is negative (converted to `size_t` it exceeds `max_size()`). -/
inductive Fault
  | length_error
  deriving DecidableEq

/-- The function `MrcFileView::Impl::check_swap_bytes`. -/
def check_swap_bytes (host : Endian) (u : Uninit) (s : Impl) : Impl :=
  let current := s.file_.pos
  let s := { s with header_ := { s.header_ with swap_bytes := false } }
  let s := { s with file_ := { s.file_ with pos := 0 } }
  let r := read_int host s.header_.swap_bytes u.number_columns s.file_
  let number_columns := r.1
  let s := { s with file_ := r.2 }
  let s :=
    if number_columns ≤ 0 ∨ number_columns ≥ 65536 then
      { s with header_ := { s.header_ with swap_bytes := true } }
    else s
  { s with file_ := { s.file_ with pos := current } }

/-- The function `MrcFileView::Impl::read_file_size`. -/
def read_file_size (s : Impl) : Impl :=
  let current := s.file_.pos
  let s := { s with file_ := { s.file_ with pos := s.file_.bytes.length } }
  let s := { s with file_size_ := s.file_.pos }
  { s with file_ := { s.file_ with pos := current } }

/-- The test `cell_angles[XX]*cell_angles[YY]*cell_angles[ZZ] < 1e-5`: two `float`
products, the result compared as a `double`. -/
def cell_angles_unset (a : Nat × Nat × Nat) : Bool :=
  FVal.lt
    (binary32.mul (binary32.mul (binary32.decode a.1) (binary32.decode a.2.1))
      (binary32.decode a.2.2))
    (binary64.decode double_1e_5)

/-- The loop over `header_.labels`: each label becomes the 80 characters of `labelToRead`
after `fread(labelToRead.data(), 1, labelSize_c, file_)`; `j` counts the iterations. -/
def read_labels (u : Uninit) : Nat → List CString → FileStream → List CString × FileStream
  | _, [], f => ([], f)
  | j, _ :: ls, f =>
    let r := fread ((List.range 80).map (u.labelToRead j)) f
    let rs := read_labels u (j + 1) ls r.2
    (r.1 :: rs.1, rs.2)

/-- A statement `reader(&header_.x)`: the reader is called on the member `get header_`,
with the current `header_.swap_bytes` and `file_`; the member and `file_` are updated. -/
def Impl.rd {α : Type} (reader : Bool → α → FileStream → α × FileStream)
    (get : MrcHeader → α) (set : MrcHeader → α → MrcHeader) (s : Impl) : Impl :=
  { s with
    file_ := (reader s.header_.swap_bytes (get s.header_) s.file_).2
    header_ := set s.header_ (reader s.header_.swap_bytes (get s.header_) s.file_).1 }

/-- A statement `if (c) { header_.x = v; }`. -/
def Impl.fix (c : MrcHeader → Bool) (f : MrcHeader → MrcHeader) (s : Impl) : Impl :=
  if c s.header_ then { s with header_ := f s.header_ } else s

/-- A statement that assigns to, or resizes, a member of `header_`. -/
def Impl.upd (f : MrcHeader → MrcHeader) (s : Impl) : Impl :=
  { s with header_ := f s.header_ }

/-- Lines 208-215 of `read_mrc_header_` (words 17-19, MAPC, MAPR, MAPS): the local array
`crs_to_xyz` starts as `header_.crs_to_xyz + 1`, is read with `read_int32_ivec_`, and
`header_.crs_to_xyz` becomes the array minus one. -/
def read_crs_to_xyz (host : Endian) (s : Impl) : Impl :=
  let crs_to_xyz : Int × Int × Int :=
    (wrap32 (s.header_.crs_to_xyz.1 + 1), wrap32 (s.header_.crs_to_xyz.2.1 + 1),
      wrap32 (s.header_.crs_to_xyz.2.2 + 1))
  let r := read_int32_ivec_ host s.header_.swap_bytes crs_to_xyz s.file_
  let crs_to_xyz := r.1
  { s with
    file_ := r.2
    header_ := { s.header_ with crs_to_xyz :=
      (wrap32 (crs_to_xyz.1 - 1), wrap32 (crs_to_xyz.2.1 - 1), wrap32 (crs_to_xyz.2.2 - 1)) } }

/-- Lines 246-283 of `read_mrc_header_` (words 25-37): the branch on
`header_.is_crystallographic`. -/
def read_skew (host : Endian) (s : Impl) : Impl :=
  if s.header_.is_crystallographic then
    -- 25 | LSKFLG
    let hasSkewMatrix : Int := if s.header_.has_skew_matrix then 1 else 0
    let r := read_int host s.header_.swap_bytes hasSkewMatrix s.file_
    let hasSkewMatrix := r.1
    let s : Impl := { s with file_ := r.2 }
    let s : Impl := { s with header_ := { s.header_ with
      has_skew_matrix := if hasSkewMatrix = 1 then true else false } }
    if s.header_.has_skew_matrix then
      -- 26-34 | SKWMAT, 35-37 | SKWTRN
      s |> Impl.rd (read_floats host) (·.skew_matrix) (fun h v => { h with skew_matrix := v })
        |> Impl.rd (read_float32_rvec_ host) (·.skew_translation)
            (fun h v => { h with skew_translation := v })
    else s
  else
    -- 25-37 not used in EMDB
    s |> Impl.rd (read_floats host) (·.extraskew) (fun h v => { h with extraskew := v })

/-- Lines 140-238 of `read_mrc_header_`: everything before the word NSYMBT. -/
def read_words_1_23 (host : Endian) (u : Uninit) (s : Impl) : Impl :=
  s |> check_swap_bytes host u
    |> read_file_size
    -- 1-3 | NC, NR, NS
    |> Impl.rd (read_int32_ivec_ host) (·.num_crs) (fun h v => { h with num_crs := v })
    -- 4 | MODE
    |> Impl.rd (read_int host) (·.mrc_data_mode) (fun h v => { h with mrc_data_mode := v })
    -- 5-7 | NCSTART, NRSTART, NSSTART
    |> Impl.rd (read_int32_ivec_ host) (·.crs_start) (fun h v => { h with crs_start := v })
    -- 8-10 | NX, NY, NZ
    |> Impl.rd (read_int32_ivec_ host) (·.extend) (fun h v => { h with extend := v })
    -- 11-13 | X_LENGTH, Y_LENGTH, Z_LENGTH
    |> Impl.rd (read_float32_rvec_ host) (·.cell_length) (fun h v => { h with cell_length := v })
    -- 14-16 | ALPHA, BETA, GAMMA
    |> Impl.rd (read_float32_rvec_ host) (·.cell_angles) (fun h v => { h with cell_angles := v })
    |> Impl.fix (fun h => cell_angles_unset h.cell_angles) (fun h => { h with cell_angles :=
          (uint_to_float binary32 90, uint_to_float binary32 90, uint_to_float binary32 90) })
    -- 17-19 | MAPC, MAPR, MAPS
    |> read_crs_to_xyz host
    |> Impl.fix (fun h => !colummn_row_section_order_valid_ h.crs_to_xyz)
          (fun h => { h with crs_to_xyz := (0, 1, 2) })
    -- 20-22 | AMIN, AMAX, AMEAN
    |> Impl.rd (read_float host) (·.min_value) (fun h v => { h with min_value := v })
    |> Impl.rd (read_float host) (·.max_value) (fun h v => { h with max_value := v })
    |> Impl.rd (read_float host) (·.mean_value) (fun h v => { h with mean_value := v })
    -- 23 | ISPG
    |> Impl.rd (read_int host) (·.space_group) (fun h v => { h with space_group := v })

/-- Lines 246-331 of `read_mrc_header_`: everything after the word NSYMBT, up to the
labels. -/
def read_words_25_256 (host : Endian) (u : Uninit) (s : Impl) : Impl :=
  s |> read_skew host
    -- 38-52 | EXTRA
    |> Impl.rd (read_floats host) (·.extra) (fun h v => { h with extra := v })
    -- 53 | MAP
    |> Impl.upd (fun h => { h with format_identifier := resize h.format_identifier 4 0 })
    |> Impl.rd (read_chars host) (·.format_identifier)
        (fun h v => { h with format_identifier := v })
    -- 54 | MACHST
    |> Impl.rd (read_int host) (·.machine_stamp) (fun h v => { h with machine_stamp := v })
    -- 55 | RMS
    |> Impl.rd (read_float host) (·.rms_value) (fun h v => { h with rms_value := v })
    -- 56 | NLABL
    |> Impl.rd (read_int host) (·.num_labels) (fun h v => { h with num_labels := v })
    -- 57-256 | LABEL_N
    |> Impl.rd (fun _ => read_labels u 0) (·.labels) (fun h v => { h with labels := v })

/-- The function `MrcFileView::Impl::read_mrc_header_`: the statements in source order, the
local `numBytesExtendedHeader` (word 24, NSYMBT) carried to the final `resize`. -/
def read_mrc_header_ (host : Endian) (u : Uninit) (s : Impl) : Except Fault Impl :=
  let s : Impl := read_words_1_23 host u s
  -- 24 | NSYMBT
  let r := read_int host s.header_.swap_bytes u.numBytesExtendedHeader s.file_
  let numBytesExtendedHeader := r.1
  let s : Impl := { s with file_ := r.2 }
  let s : Impl := read_words_25_256 host u s
  -- 257-257+NSYMBT | anything
  if numBytesExtendedHeader < 0 then .error .length_error
  else
    .ok { s with header_ := { s.header_ with
      extended_header := resize s.header_.extended_header numBytesExtendedHeader.toNat 0 } }

/-- The function `MrcFileView::Impl::read_mrc_data_`. The product is formed in `int`. -/
def read_mrc_data_ (host : Endian) (s : Impl) : Except Fault Impl :=
  let n : Int := wrap32 (wrap32 (s.header_.extend.1 * s.header_.extend.2.1) * s.header_.extend.2.2)
  if n < 0 then .error .length_error
  else
    let s := { s with data_ := resize s.data_ n.toNat 0 }
    let r := read_floats host s.header_.swap_bytes s.data_ s.file_
    .ok { s with data_ := r.1, file_ := r.2 }

/-- The constructor `MrcFileView::Impl::Impl()` followed by the `fopen` of the constructor
`MrcFileView::MrcFileView`: `h0` is the header before `setEMDBDefaults`, `file` the content
of the file that is opened. -/
def Impl.open (h0 : MrcHeader) (file : List Byte) : Impl :=
  { file_ := { bytes := file, pos := 0 }
    file_size_ := 0
    header_ := setEMDBDefaults h0
    data_ := [] }

/-- The constructor `MrcFileView::MrcFileView(filename)` on a file with content `file`. -/
def MrcFileView (host : Endian) (u : Uninit) (h0 : MrcHeader) (file : List Byte) :
    Except Fault Impl :=
  match read_mrc_header_ host u (Impl.open h0 file) with
  | .ok s => read_mrc_data_ host s
  | .error e => .error e

/-! ## Vocabulary of the statements

What the file holds at a byte offset, the position a stream reaches, and names for the
intermediate states of `read_mrc_header_`. -/

/-- The `int` stored at byte offset `p` of `bytes`, read in the byte order of the machine. -/
def int32_at (host : Endian) (bytes : List Byte) (p : Nat) : Int :=
  to_signed 32 (host_val host ((bytes.drop p).take 4))

/-- The `float` (bit pattern) stored at byte offset `p` of `bytes`, read in the byte order of
the machine. -/
def float_at (host : Endian) (bytes : List Byte) (p : Nat) : Nat :=
  host_val host ((bytes.drop p).take 4)

/-- The stream after `fread` was asked for `n` bytes: the position moves by `n`, or to the
last byte of the file when fewer bytes are left. -/
def FileStream.skip (f : FileStream) (n : Nat) : FileStream :=
  { f with pos := f.pos + min n (f.bytes.length - f.pos) }

/-- The verdict of `check_swap_bytes` on a file with content `bytes`. -/
def byte_order_mismatch (host : Endian) (u : Uninit) (bytes : List Byte) : Bool :=
  decide ((read_int host false u.number_columns ⟨bytes, 0⟩).1 ≤ 0 ∨
    (read_int host false u.number_columns ⟨bytes, 0⟩).1 ≥ 65536)

/-- The header after words 1-23, member by member, in terms of the readers. -/
def front_header (host : Endian) (u : Uninit) (s : Impl) : MrcHeader :=
  let sw := byte_order_mismatch host u s.file_.bytes
  let f := s.file_
  let ang := (read_float32_rvec_ host sw s.header_.cell_angles (f.skip 52)).1
  let crs := (read_int32_ivec_ host sw
      (wrap32 (s.header_.crs_to_xyz.1 + 1), wrap32 (s.header_.crs_to_xyz.2.1 + 1),
        wrap32 (s.header_.crs_to_xyz.2.2 + 1)) (f.skip 64)).1
  let crs1 := (wrap32 (crs.1 - 1), wrap32 (crs.2.1 - 1), wrap32 (crs.2.2 - 1))
  { s.header_ with
    swap_bytes := sw
    num_crs := (read_int32_ivec_ host sw s.header_.num_crs f).1
    mrc_data_mode := (read_int host sw s.header_.mrc_data_mode (f.skip 12)).1
    crs_start := (read_int32_ivec_ host sw s.header_.crs_start (f.skip 16)).1
    extend := (read_int32_ivec_ host sw s.header_.extend (f.skip 28)).1
    cell_length := (read_float32_rvec_ host sw s.header_.cell_length (f.skip 40)).1
    cell_angles := if cell_angles_unset ang then
        (uint_to_float binary32 90, uint_to_float binary32 90, uint_to_float binary32 90) else ang
    crs_to_xyz := if !colummn_row_section_order_valid_ crs1 then (0, 1, 2) else crs1
    min_value := (read_float host sw s.header_.min_value (f.skip 76)).1
    max_value := (read_float host sw s.header_.max_value (f.skip 80)).1
    mean_value := (read_float host sw s.header_.mean_value (f.skip 84)).1
    space_group := (read_int host sw s.header_.space_group (f.skip 88)).1 }

/-- The word LSKFLG as `read_skew` reads it. -/
def skew_flag (host : Endian) (s : Impl) : Int :=
  (read_int host s.header_.swap_bytes (if s.header_.has_skew_matrix then 1 else 0) s.file_).1

/-- The header after words 38-256, member by member, from the state `t` that the skew block
leaves. -/
def back_header (host : Endian) (u : Uninit) (t : Impl) : MrcHeader :=
  let sw := t.header_.swap_bytes
  let f := t.file_
  let n := 4 * t.header_.extra.length
  { t.header_ with
    extra := (read_floats host sw t.header_.extra f).1
    format_identifier :=
      (read_chars host sw (resize t.header_.format_identifier 4 0) (f.skip n)).1
    machine_stamp := (read_int host sw t.header_.machine_stamp (f.skip (n + 4))).1
    rms_value := (read_float host sw t.header_.rms_value (f.skip (n + 8))).1
    num_labels := (read_int host sw t.header_.num_labels (f.skip (n + 12))).1
    labels := (read_labels u 0 t.header_.labels (f.skip (n + 16))).1 }

/-- The state of the decoder after words 1-24 of the header. -/
def mid_state (host : Endian) (u : Uninit) (s : Impl) : Impl :=
  { file_ := s.file_.skip 96, file_size_ := s.file_.bytes.length, data_ := s.data_,
    header_ := front_header host u s }

/-- The value `read_mrc_header_` gives its local `numBytesExtendedHeader`. -/
def header_nsymbt (host : Endian) (u : Uninit) (s : Impl) : Int :=
  (read_int host (byte_order_mismatch host u s.file_.bytes) u.numBytesExtendedHeader
    (s.file_.skip 92)).1

/-- The state `read_mrc_header_` reaches before its final `resize`. -/
def header_state (host : Endian) (u : Uninit) (s : Impl) : Impl :=
  read_words_25_256 host u (mid_state host u s)

/-- The final statement of `read_mrc_header_`: `header_.extended_header.resize(n)`. -/
def finish_header (n : Nat) (s : Impl) : Impl :=
  { s with header_ := { s.header_ with extended_header := resize s.header_.extended_header n 0 } }

/-- The six orderings of the axes `0, 1, 2`. -/
def axis_orders : List (Int × Int × Int) :=
  [(0, 1, 2), (0, 2, 1), (1, 0, 2), (1, 2, 0), (2, 0, 1), (2, 1, 0)]

/-! ## Sample files -/

/-- A sequence of 4-byte fields written least significant byte first. -/
def le_words (ws : List Nat) : List Byte :=
  (ws.map (le_bytes 4)).flatten

/-- A sequence of 4-byte fields written most significant byte first. -/
def be_words (ws : List Nat) : List Byte :=
  (ws.map (fun w => (le_bytes 4 w).reverse)).flatten

/-- A map file: counts and extent `(2, 2, 1)`, mode 2, origin 0, cell lengths
`(2.0, 2.0, 1.0)`, the given cell angles, axis order `1, 2, 3`, statistics
`1.0, 4.0, 2.5`, space group 1, the given NSYMBT, 28 zero words, `MAP `, a machine stamp,
rms `1.0`, one label, the ten labels, then the bytes `ext` and the four voxels
`1.0, 2.0, 3.0, 4.0`. The 4-byte fields are written with `enc`. -/
def sample (enc : List Nat → List Byte) (angles : Nat × Nat × Nat) (nsymbt : Nat)
    (ext : List Byte) : List Byte :=
  enc [2, 2, 1, 2, 0, 0, 0, 2, 2, 1, 0x40000000, 0x40000000, 0x3F800000,
      angles.1, angles.2.1, angles.2.2, 1, 2, 3, 0x3F800000, 0x40800000, 0x40200000, 1, nsymbt]
    ++ enc (List.replicate 28 0)
    ++ chars "MAP "
    ++ enc [0x00004144, 0x3F800000, 1]
    ++ emdbCustomLabel ++ (List.replicate 9 empty80CharLabel).flatten
    ++ ext
    ++ enc [0x3F800000, 0x40000000, 0x40400000, 0x40800000]

/-- The sample in the byte order of a little-endian machine, cell angles `90.0`, no
extended header: 1040 bytes. -/
def sample_file : List Byte :=
  sample le_words (0x42B40000, 0x42B40000, 0x42B40000) 0 []

/-- The same fields and voxels with the bytes of every 4-byte field reversed. -/
def sample_swapped_file : List Byte :=
  sample be_words (0x42B40000, 0x42B40000, 0x42B40000) 0 []

/-- The sample with cell angles `(0.0, 90.0, 90.0)`. -/
def sample_angles_file : List Byte :=
  sample le_words (0, 0x42B40000, 0x42B40000) 0 []

/-- The sample with an extended header of 80 bytes `0x2A` declared in NSYMBT. -/
def sample_extended_file : List Byte :=
  sample le_words (0x42B40000, 0x42B40000, 0x42B40000) 80 (List.replicate 80 0x2A)

/-- Some content for the objects the decoder leaves uninitialised. -/
def sample_uninit : Uninit :=
  { number_columns := -7, numBytesExtendedHeader := -1, labelToRead := fun _ _ => 0xAA }

/-- Some content for the header before `setEMDBDefaults`. -/
def sample_header : MrcHeader :=
  { swap_bytes := true, space_group := 5, mrc_data_mode := 9, machine_stamp := 3,
    format_identifier := [], num_labels := 77, labels := [],
    cell_length := (5, 6, 7), cell_angles := (8, 9, 10), crs_to_xyz := (3, 3, 3),
    num_crs := (11, 12, 13), extend := (14, 15, 16), crs_start := (17, 18, 19),
    min_value := 20, max_value := 21, mean_value := 22, rms_value := 23,
    is_crystallographic := true, has_skew_matrix := true, skew_matrix := [],
    skew_translation := (24, 25, 26), num_bytes_extened_header := 27, extended_header := [1],
    extraskew := [], extra := [] }

/-- The decoder state of a caller that asks for crystallographic data: the state
`MrcFileView` starts from, with `header_.is_crystallographic` set. -/
def sample_crystallographic (file : List Byte) : Impl :=
  { Impl.open sample_header file with
    header_ := { setEMDBDefaults sample_header with is_crystallographic := true } }

/-- The sample file with its extent (bytes 28-39) replaced by the three 4-byte words `e`. -/
def sample_extent_file (e : List Nat) : List Byte :=
  sample_file.take 28 ++ le_words e ++ sample_file.drop 40

/-- The sample file with words 25-37 (bytes 96-147) replaced: the skew flag `flag`, then the
floats `1.0, 2.0, ..., 12.0`. -/
def sample_skew_file (flag : Nat) : List Byte :=
  sample_file.take 96 ++
    le_words [flag, 0x3F800000, 0x40000000, 0x40400000, 0x40800000, 0x40A00000, 0x40C00000,
      0x40E00000, 0x41000000, 0x41100000, 0x41200000, 0x41300000, 0x41400000] ++
    sample_file.drop 148

/-- The sample file with its first word (bytes 0-3) replaced by `w`. -/
def sample_columns_file (w : Nat) : List Byte :=
  le_words [w] ++ sample_file.drop 4

/-- The value of the claims about `read<float>`: the 32-bit unsigned integer whose four bytes
are those of `u` in reverse order. -/
def byte_reversal32 (u : Nat) : Nat :=
  le_val (le_bytes 4 u).reverse

/-- Two streams at the same position, of the same length, with the same bytes from the
position on. -/
def FileStream.same_tail (f g : FileStream) : Prop :=
  f.pos = g.pos ∧ f.bytes.length = g.bytes.length ∧ f.bytes.drop f.pos = g.bytes.drop g.pos

/-- Two decoder states that agree on what is left of the stream, on `file_size_`, on `data_`
and on every member of `header_` but `mrc_data_mode`. -/
def Impl.same_but_mode (s t : Impl) : Prop :=
  s.file_.same_tail t.file_ ∧ s.file_size_ = t.file_size_ ∧ s.data_ = t.data_ ∧
    t.header_ = { s.header_ with mrc_data_mode := t.header_.mrc_data_mode }

/-- The sample file with its data mode (word 4, bytes 12-15) replaced by `w`. -/
def sample_mode_file (w : Nat) : List Byte :=
  sample_file.take 12 ++ le_words [w] ++ sample_file.drop 16

/-! ## The floating-point model -/

theorem bit_length_aux_spec (fuel n : Nat) (h : n ≤ fuel) (hn : 0 < n) :
    2 ^ (bit_length_aux fuel n - 1) ≤ n ∧ n < 2 ^ bit_length_aux fuel n := by
  induction fuel generalizing n with
  | zero => omega
  | succ fuel ih =>
    have hne : n ≠ 0 := by omega
    simp only [bit_length_aux, hne, if_false, Nat.add_sub_cancel]
    by_cases h1 : n / 2 = 0
    · have hn1 : n = 1 := by omega
      subst hn1
      cases fuel <;> simp [bit_length_aux]
    · have hpos : 0 < n / 2 := by omega
      obtain ⟨ih1, ih2⟩ := ih (n / 2) (by omega) hpos
      have hb : 0 < bit_length_aux fuel (n / 2) := by
        cases fuel with
        | zero => omega
        | succ f => simp only [bit_length_aux, h1, if_false]; omega
      have e : bit_length_aux fuel (n / 2) = (bit_length_aux fuel (n / 2) - 1) + 1 := by omega
      constructor
      · rw [e, pow_succ]
        omega
      · rw [pow_succ]
        omega

/-- The number of binary digits: `2^(k-1) <= n < 2^k` for `k = bit_length n`, `n > 0`. -/
theorem bit_length_spec (n : Nat) (hn : 0 < n) :
    2 ^ (bit_length n - 1) ≤ n ∧ n < 2 ^ bit_length n :=
  bit_length_aux_spec n n (Nat.le_refl n) hn

/-- The constant `double_1e_5` is the double `5902958103587057 * 2^(-69)`, which lies
within half a unit in the last place of `10^(-5)`: it is the literal `1e-5`. -/
theorem double_1e_5_nearest :
    binary64.decode double_1e_5 = .fin false 5902958103587057 (-69) ∧
    (2 * 5902958103587057 - 1) * 10 ^ 5 ≤ 2 ^ 70 ∧ 2 ^ 70 ≤ (2 * 5902958103587057 + 1) * 10 ^ 5 := by
  refine ⟨?_, ?_, ?_⟩ <;> decide

/-- The value `90.0f` that replaces unset cell angles has the bit pattern `0x42B40000`. -/
theorem float_90 : uint_to_float binary32 90 = 0x42B40000 := by
  decide

/-! ## Streams and readers -/

theorem le_bytes_length (n w : Nat) : (le_bytes n w).length = n := by
  induction n generalizing w with
  | zero => rfl
  | succ n ih => simp [le_bytes, ih]

theorem host_bytes_length (host : Endian) (n w : Nat) : (host_bytes host n w).length = n := by
  cases host <;> simp [host_bytes, le_bytes_length]

theorem fread_snd (buf : List Byte) (f : FileStream) : (fread buf f).2 = f.skip buf.length := by
  simp only [fread, FileStream.skip, List.length_take, List.length_drop]

theorem fread_mk (buf bytes : List Byte) (p : Nat) (h : p + buf.length ≤ bytes.length) :
    fread buf ⟨bytes, p⟩ = ((bytes.drop p).take buf.length, ⟨bytes, p + buf.length⟩) := by
  have hl : ((bytes.drop p).take buf.length).length = buf.length := by
    simp only [List.length_take, List.length_drop]; omega
  simp only [fread, hl, List.drop_length, List.append_nil]

theorem skip_skip (f : FileStream) (a b : Nat) : (f.skip a).skip b = f.skip (a + b) := by
  simp only [FileStream.skip, FileStream.mk.injEq, true_and]
  omega

theorem swap_value_int32 (v : Nat) : swap_value .int32_t v = v := by
  simp [swap_value]

theorem swap_value_char (v : Nat) : swap_value .char v = v := by
  simp [swap_value]

theorem read_snd (host : Endian) (T : CType) (sw : Bool) (r : Nat) (f : FileStream) :
    (read host T sw r f).2 = f.skip T.sizeof := by
  simp only [read, fread_snd, host_bytes_length]

theorem read_int_snd (host : Endian) (sw : Bool) (r : Int) (f : FileStream) :
    (read_int host sw r f).2 = f.skip 4 := by
  simp only [read_int, read_snd, CType.sizeof]

theorem read_int_mk (host : Endian) (sw : Bool) (r : Int) (bytes : List Byte) (p : Nat)
    (h : p + 4 ≤ bytes.length) :
    read_int host sw r ⟨bytes, p⟩ = (int32_at host bytes p, ⟨bytes, p + 4⟩) := by
  have h2 : p + (host_bytes host 4 (to_unsigned 32 r)).length ≤ bytes.length := by
    rw [host_bytes_length]; exact h
  simp only [read_int, read, CType.sizeof, fread_mk _ _ _ h2, host_bytes_length, swap_value_int32,
    ite_self, int32_at]

theorem read_int32_ivec__mk (host : Endian) (sw : Bool) (r : Int × Int × Int) (bytes : List Byte)
    (p : Nat) (h : p + 12 ≤ bytes.length) :
    read_int32_ivec_ host sw r ⟨bytes, p⟩ =
      ((int32_at host bytes p, int32_at host bytes (p + 4), int32_at host bytes (p + 8)),
        ⟨bytes, p + 12⟩) := by
  simp (disch := omega) only [read_int32_ivec_, read_int_mk]

theorem read_float_snd (host : Endian) (sw : Bool) (r : Nat) (f : FileStream) :
    (read_float host sw r f).2 = f.skip 4 := by
  simp only [read_float, read_snd, CType.sizeof]

theorem read_float_mk (host : Endian) (sw : Bool) (r : Nat) (bytes : List Byte) (p : Nat)
    (h : p + 4 ≤ bytes.length) :
    read_float host sw r ⟨bytes, p⟩ =
      (if sw then swap_value .float (float_at host bytes p) else float_at host bytes p,
        ⟨bytes, p + 4⟩) := by
  have h2 : p + (host_bytes host 4 r).length ≤ bytes.length := by
    rw [host_bytes_length]; exact h
  simp only [read_float, read, CType.sizeof, fread_mk _ _ _ h2, host_bytes_length, float_at]

theorem read_char_snd (host : Endian) (sw : Bool) (r : Byte) (f : FileStream) :
    (read_char host sw r f).2 = f.skip 1 := by
  simp only [read_char, read_snd, CType.sizeof]

theorem read_float32_rvec__snd (host : Endian) (sw : Bool) (r : Nat × Nat × Nat) (f : FileStream) :
    (read_float32_rvec_ host sw r f).2 = f.skip 12 := by
  simp only [read_float32_rvec_, read_float_snd, skip_skip]

theorem read_int32_ivec__snd (host : Endian) (sw : Bool) (r : Int × Int × Int) (f : FileStream) :
    (read_int32_ivec_ host sw r f).2 = f.skip 12 := by
  simp only [read_int32_ivec_, read_int_snd, skip_skip]

theorem read_floats_snd (host : Endian) (sw : Bool) (xs : List Nat) (f : FileStream) :
    (read_floats host sw xs f).2 = f.skip (4 * xs.length) := by
  induction xs generalizing f with
  | nil => simp [read_floats, FileStream.skip]
  | cons x xs ih =>
    simp only [read_floats, ih, read_float_snd, skip_skip, List.length_cons]
    congr 1; omega

theorem read_chars_snd (host : Endian) (sw : Bool) (xs : List Byte) (f : FileStream) :
    (read_chars host sw xs f).2 = f.skip xs.length := by
  induction xs generalizing f with
  | nil => simp [read_chars, FileStream.skip]
  | cons x xs ih =>
    simp only [read_chars, ih, read_char_snd, skip_skip, List.length_cons]
    congr 1; omega

theorem read_labels_snd (u : Uninit) (j : Nat) (ls : List CString) (f : FileStream) :
    (read_labels u j ls f).2 = f.skip (80 * ls.length) := by
  induction ls generalizing f j with
  | nil => simp [read_labels, FileStream.skip]
  | cons x xs ih =>
    simp only [read_labels, ih, fread_snd, skip_skip, List.length_cons, List.length_map,
      List.length_range]
    congr 1; omega

theorem read_floats_length (host : Endian) (sw : Bool) (xs : List Nat) (f : FileStream) :
    (read_floats host sw xs f).1.length = xs.length := by
  induction xs generalizing f with
  | nil => rfl
  | cons x xs ih => simp only [read_floats, List.length_cons, ih]

theorem read_chars_length (host : Endian) (sw : Bool) (xs : List Byte) (f : FileStream) :
    (read_chars host sw xs f).1.length = xs.length := by
  induction xs generalizing f with
  | nil => rfl
  | cons x xs ih => simp only [read_chars, List.length_cons, ih]

theorem read_labels_length (u : Uninit) (j : Nat) (ls : List CString) (f : FileStream) :
    (read_labels u j ls f).1.length = ls.length := by
  induction ls generalizing f j with
  | nil => rfl
  | cons x xs ih => simp only [read_labels, List.length_cons, ih]

theorem resize_length {α : Type} (xs : List α) (n : Nat) (d : α) : (resize xs n d).length = n := by
  simp only [resize, List.length_append, List.length_take, List.length_replicate]
  omega

theorem skip_bytes (f : FileStream) (n : Nat) : (f.skip n).bytes = f.bytes := rfl

theorem skip_mk (bytes : List Byte) (p n : Nat) (h : p + n ≤ bytes.length) :
    FileStream.skip ⟨bytes, p⟩ n = ⟨bytes, p + n⟩ := by
  simp only [FileStream.skip, FileStream.mk.injEq, true_and]
  omega

theorem check_swap_bytes_eq (host : Endian) (u : Uninit) (s : Impl) :
    check_swap_bytes host u s =
      { s with header_ := { s.header_ with swap_bytes := byte_order_mismatch host u s.file_.bytes } } := by
  simp only [check_swap_bytes, byte_order_mismatch, read_int_snd, FileStream.skip]
  by_cases h : (read_int host false u.number_columns ⟨s.file_.bytes, 0⟩).1 ≤ 0 ∨
      (read_int host false u.number_columns ⟨s.file_.bytes, 0⟩).1 ≥ 65536
  · simp only [h, if_true, decide_True]
  · simp only [h, if_false, decide_False]

theorem read_file_size_eq (s : Impl) :
    read_file_size s = { s with file_size_ := s.file_.bytes.length } := by
  simp only [read_file_size]

/-! ## The header, phase by phase -/

theorem Impl.fix_eq (c : MrcHeader → Bool) (f : MrcHeader → MrcHeader) (s : Impl) :
    Impl.fix c f s = { s with header_ := if c s.header_ then f s.header_ else s.header_ } := by
  unfold Impl.fix
  split <;> rfl

theorem fix_cell_angles_eq (c : MrcHeader → Bool) (x : Nat × Nat × Nat) (s : Impl) :
    Impl.fix c (fun h => { h with cell_angles := x }) s =
      { s with header_ := { s.header_ with
          cell_angles := if c s.header_ then x else s.header_.cell_angles } } := by
  unfold Impl.fix
  split <;> rfl

theorem fix_crs_to_xyz_eq (c : MrcHeader → Bool) (x : Int × Int × Int) (s : Impl) :
    Impl.fix c (fun h => { h with crs_to_xyz := x }) s =
      { s with header_ := { s.header_ with
          crs_to_xyz := if c s.header_ then x else s.header_.crs_to_xyz } } := by
  unfold Impl.fix
  split <;> rfl

theorem read_words_1_23_eq (host : Endian) (u : Uninit) (s : Impl) :
    read_words_1_23 host u s =
      { file_ := s.file_.skip 92, file_size_ := s.file_.bytes.length, data_ := s.data_,
        header_ := front_header host u s } := by
  simp only [read_words_1_23, front_header, check_swap_bytes_eq, read_file_size_eq, Impl.rd,
    fix_cell_angles_eq, fix_crs_to_xyz_eq, read_crs_to_xyz, read_int32_ivec__snd, read_int_snd, read_float_snd,
    read_float32_rvec__snd, skip_skip, Nat.reduceAdd]

theorem read_words_25_256_eq (host : Endian) (u : Uninit) (s : Impl) :
    read_words_25_256 host u s =
      { file_ := (read_skew host s).file_.skip
          (4 * (read_skew host s).header_.extra.length + 16 +
            80 * (read_skew host s).header_.labels.length)
        file_size_ := (read_skew host s).file_size_
        data_ := (read_skew host s).data_
        header_ := back_header host u (read_skew host s) } := by
  simp only [read_words_25_256, back_header, Impl.rd, Impl.upd, read_floats_snd, read_chars_snd,
    read_int_snd, read_float_snd, read_labels_snd, skip_skip, resize_length, Nat.reduceAdd,
    Nat.add_assoc]

theorem read_skew_of_not_crystallographic (host : Endian) (s : Impl)
    (h : s.header_.is_crystallographic = false) :
    read_skew host s =
      { s with
        file_ := s.file_.skip (4 * s.header_.extraskew.length)
        header_ := { s.header_ with
          extraskew := (read_floats host s.header_.swap_bytes s.header_.extraskew s.file_).1 } } := by
  simp only [read_skew, h, Bool.false_eq_true, if_false, Impl.rd, read_floats_snd]

theorem read_skew_of_crystallographic (host : Endian) (s : Impl)
    (h : s.header_.is_crystallographic = true) :
    read_skew host s =
      if skew_flag host s = 1 then
        { s with
          file_ := s.file_.skip (4 + 4 * s.header_.skew_matrix.length + 12)
          header_ := { s.header_ with
            has_skew_matrix := true
            skew_matrix :=
              (read_floats host s.header_.swap_bytes s.header_.skew_matrix (s.file_.skip 4)).1
            skew_translation :=
              (read_float32_rvec_ host s.header_.swap_bytes s.header_.skew_translation
                (s.file_.skip (4 + 4 * s.header_.skew_matrix.length))).1 } }
      else
        { s with
          file_ := s.file_.skip 4
          header_ := { s.header_ with has_skew_matrix := false } } := by
  unfold skew_flag
  by_cases hf : (read_int host s.header_.swap_bytes (if s.header_.has_skew_matrix then 1 else 0)
      s.file_).1 = 1
  · simp only [read_skew, h, hf, if_true, Impl.rd, read_floats_snd, read_float32_rvec__snd,
      read_int_snd, skip_skip]
  · simp only [read_skew, h, hf, if_true, if_false, Bool.false_eq_true, read_int_snd]

theorem read_skew_data_ (host : Endian) (s : Impl) : (read_skew host s).data_ = s.data_ := by
  cases hc : s.header_.is_crystallographic
  · rw [read_skew_of_not_crystallographic host s hc]
  · rw [read_skew_of_crystallographic host s hc]
    split <;> rfl

theorem read_skew_file_size_ (host : Endian) (s : Impl) :
    (read_skew host s).file_size_ = s.file_size_ := by
  cases hc : s.header_.is_crystallographic
  · rw [read_skew_of_not_crystallographic host s hc]
  · rw [read_skew_of_crystallographic host s hc]
    split <;> rfl

/-- The members of `header_` that the skew block can assign are `has_skew_matrix`,
`skew_matrix`, `skew_translation` and `extraskew`. -/
theorem read_skew_header_ (host : Endian) (s : Impl) :
    (read_skew host s).header_ =
      { s.header_ with
        has_skew_matrix := (read_skew host s).header_.has_skew_matrix
        skew_matrix := (read_skew host s).header_.skew_matrix
        skew_translation := (read_skew host s).header_.skew_translation
        extraskew := (read_skew host s).header_.extraskew } := by
  cases hc : s.header_.is_crystallographic
  · rw [read_skew_of_not_crystallographic host s hc]
  · rw [read_skew_of_crystallographic host s hc]
    split <;> rfl

theorem wrap32_of_range (v : Int) (h1 : -2147483648 ≤ v) (h2 : v < 2147483648) : wrap32 v = v := by
  simp only [wrap32, to_signed, to_unsigned]
  norm_num
  omega

theorem read_floats_mk (host : Endian) (xs : List Nat) (bytes : List Byte) (p : Nat)
    (h : p + 4 * xs.length ≤ bytes.length) :
    read_floats host false xs ⟨bytes, p⟩ =
      ((List.range xs.length).map (fun i => float_at host bytes (p + 4 * i)),
        ⟨bytes, p + 4 * xs.length⟩) := by
  induction xs generalizing p with
  | nil => simp [read_floats]
  | cons x xs ih =>
    have h1 : p + 4 ≤ bytes.length := by simp only [List.length_cons] at h; omega
    have h2 : p + 4 + 4 * xs.length ≤ bytes.length := by simp only [List.length_cons] at h; omega
    simp only [read_floats, read_float_mk host false x bytes p h1, ih (p + 4) h2,
      List.length_cons, List.range_succ_eq_map, List.map_cons, List.map_map, Bool.false_eq_true,
      if_false, Nat.mul_zero, Nat.add_zero, Prod.mk.injEq, List.cons.injEq, true_and,
      FileStream.mk.injEq]
    refine ⟨?_, by omega⟩
    apply List.map_congr_left
    intro i _
    simp only [Function.comp_apply]
    congr 1
    omega

theorem read_mrc_header__eq (host : Endian) (u : Uninit) (s : Impl) :
    read_mrc_header_ host u s =
      if header_nsymbt host u s < 0 then .error .length_error
      else .ok (finish_header (header_nsymbt host u s).toNat (header_state host u s)) := by
  have hsw : (front_header host u s).swap_bytes = byte_order_mismatch host u s.file_.bytes := rfl
  simp only [read_mrc_header_, header_state, mid_state, header_nsymbt, read_words_1_23_eq,
    read_int_snd, skip_skip, hsw, Nat.reduceAdd, finish_header]

theorem finish_header_file_ (n : Nat) (s : Impl) : (finish_header n s).file_ = s.file_ := rfl

theorem finish_header_data_ (n : Nat) (s : Impl) : (finish_header n s).data_ = s.data_ := rfl

theorem finish_header_swap_bytes (n : Nat) (s : Impl) :
    (finish_header n s).header_.swap_bytes = s.header_.swap_bytes := rfl

theorem finish_header_extend (n : Nat) (s : Impl) :
    (finish_header n s).header_.extend = s.header_.extend := rfl

theorem finish_header_header_ (n : Nat) (s : Impl) :
    (finish_header n s).header_ =
      { s.header_ with extended_header := resize s.header_.extended_header n 0 } := rfl

theorem header_state_eq (host : Endian) (u : Uninit) (s : Impl) :
    header_state host u s =
      { file_ := (read_skew host (mid_state host u s)).file_.skip
          (4 * (read_skew host (mid_state host u s)).header_.extra.length + 16 +
            80 * (read_skew host (mid_state host u s)).header_.labels.length)
        file_size_ := (read_skew host (mid_state host u s)).file_size_
        data_ := (read_skew host (mid_state host u s)).data_
        header_ := back_header host u (read_skew host (mid_state host u s)) } := by
  rw [header_state, read_words_25_256_eq]

theorem header_state_data_ (host : Endian) (u : Uninit) (s : Impl) :
    (header_state host u s).data_ = s.data_ := by
  rw [header_state_eq]
  simp only [read_skew_data_, mid_state]

/-- Members of `header_` that are settled by words 1-23: later statements leave them alone. -/
theorem header_state_front (host : Endian) (u : Uninit) (s : Impl) :
    (header_state host u s).header_.swap_bytes = byte_order_mismatch host u s.file_.bytes ∧
    (header_state host u s).header_.is_crystallographic = s.header_.is_crystallographic ∧
    (header_state host u s).header_.num_crs = (front_header host u s).num_crs ∧
    (header_state host u s).header_.mrc_data_mode = (front_header host u s).mrc_data_mode ∧
    (header_state host u s).header_.crs_start = (front_header host u s).crs_start ∧
    (header_state host u s).header_.extend = (front_header host u s).extend ∧
    (header_state host u s).header_.cell_length = (front_header host u s).cell_length ∧
    (header_state host u s).header_.cell_angles = (front_header host u s).cell_angles ∧
    (header_state host u s).header_.crs_to_xyz = (front_header host u s).crs_to_xyz := by
  rw [header_state_eq]
  simp only [back_header]
  rw [read_skew_header_]
  simp only [mid_state, front_header, and_self]

theorem header_state_file_ (host : Endian) (u : Uninit) (s : Impl)
    (hc : s.header_.is_crystallographic = false) :
    (header_state host u s).file_ =
      s.file_.skip (96 + 4 * s.header_.extraskew.length + 4 * s.header_.extra.length + 16 +
        80 * s.header_.labels.length) := by
  have hc2 : (mid_state host u s).header_.is_crystallographic = false := hc
  rw [header_state_eq, read_skew_of_not_crystallographic _ _ hc2]
  simp only [mid_state, front_header, skip_skip, Nat.add_assoc]

theorem byte_order_mismatch_eq (host : Endian) (u : Uninit) (bytes : List Byte)
    (h : 4 ≤ bytes.length) :
    byte_order_mismatch host u bytes =
      decide (int32_at host bytes 0 ≤ 0 ∨ int32_at host bytes 0 ≥ 65536) := by
  simp (disch := omega) only [byte_order_mismatch, read_int_mk]

theorem MrcFileView_of_ok (host : Endian) (u : Uninit) (h0 : MrcHeader) (file : List Byte)
    (s : Impl) (h : read_mrc_header_ host u (Impl.open h0 file) = .ok s) :
    MrcFileView host u h0 file = read_mrc_data_ host s := by
  unfold MrcFileView
  rw [h]

theorem resize_nil {α : Type} (n : Nat) (d : α) : resize ([] : List α) n d = List.replicate n d := by
  simp only [resize, List.take_nil, List.nil_append, List.length_nil, Nat.sub_zero]

/-- The voxel loop on a stream that holds all the voxels, without byte swapping. -/
theorem read_mrc_data__full (host : Endian) (s : Impl) (bytes : List Byte) (p : Nat)
    (ex ey ez : Int) (hsw : s.header_.swap_bytes = false) (hext : s.header_.extend = (ex, ey, ez))
    (hfile : s.file_ = ⟨bytes, p⟩) (hdata : s.data_ = [])
    (hx : 0 < ex) (hy : 0 < ey) (hz : 0 < ez) (hprod : ex * ey * ez < 2147483648)
    (hlen : p + 4 * (ex * ey * ez).toNat ≤ bytes.length) :
    read_mrc_data_ host s = .ok
      { s with
        data_ := (List.range (ex * ey * ez).toNat).map (fun i => float_at host bytes (p + 4 * i))
        file_ := ⟨bytes, p + 4 * (ex * ey * ez).toNat⟩ } := by
  have hxy : 0 < ex * ey := Int.mul_pos hx hy
  have hxy2 : ex * ey < 2147483648 := by nlinarith
  have hw1 : wrap32 (ex * ey) = ex * ey := wrap32_of_range _ (by omega) hxy2
  have hxyz : 0 < ex * ey * ez := Int.mul_pos hxy hz
  have hw2 : wrap32 (ex * ey * ez) = ex * ey * ez := wrap32_of_range _ (by omega) hprod
  have hnn : ¬ (ex * ey * ez < 0) := by omega
  have hrd := read_floats_mk host (List.replicate (ex * ey * ez).toNat 0) bytes p
    (by rw [List.length_replicate]; exact hlen)
  rw [List.length_replicate] at hrd
  simp only [read_mrc_data_, hsw, hext, hfile, hdata, hw1, hw2, hnn, if_false, resize_nil, hrd]

/-- The constructor on a header state with known extent, position and byte order. -/
theorem MrcFileView_of_header (host : Endian) (u : Uninit) (h0 : MrcHeader) (file : List Byte)
    (s1 : Impl) (p : Nat) (ex ey ez : Int)
    (hok : read_mrc_header_ host u (Impl.open h0 file) = .ok s1)
    (hsw : s1.header_.swap_bytes = false) (hext : s1.header_.extend = (ex, ey, ez))
    (hfile : s1.file_ = ⟨file, p⟩) (hdata : s1.data_ = [])
    (hx : 0 < ex) (hy : 0 < ey) (hz : 0 < ez) (hprod : ex * ey * ez < 2147483648)
    (hlen : p + 4 * (ex * ey * ez).toNat ≤ file.length) :
    ∃ s, MrcFileView host u h0 file = .ok s ∧ s.header_.extend = (ex, ey, ez) ∧
      s.data_.length = (ex * ey * ez).toNat ∧
      s.data_ = (List.range (ex * ey * ez).toNat).map (fun i => float_at host file (p + 4 * i)) := by
  rw [MrcFileView_of_ok host u h0 file _ hok]
  refine ⟨_, read_mrc_data__full host _ file p _ _ _ hsw hext hfile hdata hx hy hz hprod hlen,
    hext, ?_, rfl⟩
  simp only [List.length_map, List.length_range]

/-! ## The axis order -/

theorem to_signed_32_range (w : Nat) :
    -2147483648 ≤ to_signed 32 w ∧ to_signed 32 w < 2147483648 := by
  simp only [to_signed]
  norm_num
  have := Nat.mod_lt w (show 0 < 4294967296 by norm_num)
  split <;> omega

theorem int32_at_range (host : Endian) (bytes : List Byte) (p : Nat) :
    -2147483648 ≤ int32_at host bytes p ∧ int32_at host bytes p < 2147483648 :=
  to_signed_32_range _

theorem axis_set_iff (x y z : Int) :
    ({x, y, z} : Finset Int) = {0, 1, 2} ↔
      ((x = 0 ∨ x = 1 ∨ x = 2) ∧ (y = 0 ∨ y = 1 ∨ y = 2) ∧ (z = 0 ∨ z = 1 ∨ z = 2) ∧
        (x = 0 ∨ y = 0 ∨ z = 0) ∧ (x = 1 ∨ y = 1 ∨ z = 1) ∧ (x = 2 ∨ y = 2 ∨ z = 2)) := by
  constructor
  · intro h
    have hx := (Finset.ext_iff.mp h) x
    have hy := (Finset.ext_iff.mp h) y
    have hz := (Finset.ext_iff.mp h) z
    have h0 := (Finset.ext_iff.mp h) 0
    have h1 := (Finset.ext_iff.mp h) 1
    have h2 := (Finset.ext_iff.mp h) 2
    simp only [Finset.mem_insert, Finset.mem_singleton, true_or, or_true, true_iff, iff_true]
      at hx hy hz h0 h1 h2
    refine ⟨hx, hy, hz, ?_, ?_, ?_⟩
    · rcases h0 with h | h | h <;> simp [h]
    · rcases h1 with h | h | h <;> simp [h]
    · rcases h2 with h | h | h <;> simp [h]
  · rintro ⟨hx, hy, hz, h0, h1, h2⟩
    ext a
    simp only [Finset.mem_insert, Finset.mem_singleton]
    constructor
    · rintro (rfl | rfl | rfl) <;> assumption
    · rintro (rfl | rfl | rfl)
      · rcases h0 with h | h | h <;> simp [h]
      · rcases h1 with h | h | h <;> simp [h]
      · rcases h2 with h | h | h <;> simp [h]

theorem axis_orders_of_valid (c : Int × Int × Int)
    (h : colummn_row_section_order_valid_ c = true) : c ∈ axis_orders := by
  obtain ⟨x, y, z⟩ := c
  simp only [colummn_row_section_order_valid_, decide_eq_true_eq] at h
  obtain ⟨hx, hy, hz, h0, h1, h2⟩ := (axis_set_iff x y z).mp h
  rcases hx with rfl | rfl | rfl <;> rcases hy with rfl | rfl | rfl <;>
    rcases hz with rfl | rfl | rfl <;> simp at h0 h1 h2 <;> simp [axis_orders]

theorem wrap32_pred_eq_iff (a k : Int) (h1 : -2147483648 ≤ a) (h2 : a < 2147483648)
    (hk : 0 ≤ k ∧ k ≤ 2) : wrap32 (a - 1) = k ↔ a - 1 = k := by
  by_cases h : a = -2147483648
  · subst h
    have hw : wrap32 (-2147483648 - 1) = 2147483647 := by decide
    rw [hw]
    omega
  · rw [wrap32_of_range _ (by omega) (by omega)]

/-- Validity of the stored axis order is validity of the triple of the file minus one, and
a valid triple is stored as it is. -/
theorem valid_wrap32_pred (a b c : Int)
    (ha : -2147483648 ≤ a ∧ a < 2147483648) (hb : -2147483648 ≤ b ∧ b < 2147483648)
    (hc : -2147483648 ≤ c ∧ c < 2147483648) :
    (colummn_row_section_order_valid_ (wrap32 (a - 1), wrap32 (b - 1), wrap32 (c - 1)) = true ↔
      ({a - 1, b - 1, c - 1} : Finset Int) = {0, 1, 2}) ∧
    (({a - 1, b - 1, c - 1} : Finset Int) = {0, 1, 2} →
      (wrap32 (a - 1), wrap32 (b - 1), wrap32 (c - 1)) = (a - 1, b - 1, c - 1)) := by
  have e (x k : Int) (hx : -2147483648 ≤ x ∧ x < 2147483648) (hk : 0 ≤ k ∧ k ≤ 2) :=
    wrap32_pred_eq_iff x k hx.1 hx.2 hk
  constructor
  · simp only [colummn_row_section_order_valid_, decide_eq_true_eq, axis_set_iff,
      e a 0 ha (by omega), e a 1 ha (by omega), e a 2 ha (by omega),
      e b 0 hb (by omega), e b 1 hb (by omega), e b 2 hb (by omega),
      e c 0 hc (by omega), e c 1 hc (by omega), e c 2 hc (by omega)]
  · intro h
    obtain ⟨hx, hy, hz, -, -, -⟩ := (axis_set_iff _ _ _).mp h
    rw [wrap32_of_range (a - 1) (by omega) (by omega),
      wrap32_of_range (b - 1) (by omega) (by omega),
      wrap32_of_range (c - 1) (by omega) (by omega)]

/-! ## Results of the whole header decode -/

theorem finish_header_crs_to_xyz (n : Nat) (s : Impl) :
    (finish_header n s).header_.crs_to_xyz = s.header_.crs_to_xyz := rfl

theorem finish_header_cell_angles (n : Nat) (s : Impl) :
    (finish_header n s).header_.cell_angles = s.header_.cell_angles := rfl

/-- A header decode that returns has read a non-negative NSYMBT and returns the state
reached before the final `resize`, resized. -/
theorem read_mrc_header__ok (host : Endian) (u : Uninit) (s s' : Impl)
    (h : read_mrc_header_ host u s = .ok s') :
    0 ≤ header_nsymbt host u s ∧
      s' = finish_header (header_nsymbt host u s).toNat (header_state host u s) := by
  rw [read_mrc_header__eq] at h
  split at h
  · cases h
  · rename_i hn
    injection h with h
    exact ⟨by omega, h.symm⟩

/-- The header decode returns exactly when the NSYMBT it read is not negative. -/
theorem read_mrc_header__of_nonneg (host : Endian) (u : Uninit) (s : Impl)
    (h : 0 ≤ header_nsymbt host u s) :
    read_mrc_header_ host u s =
      .ok (finish_header (header_nsymbt host u s).toNat (header_state host u s)) := by
  rw [read_mrc_header__eq, if_neg (by omega)]

theorem header_nsymbt_eq (host : Endian) (u : Uninit) (s : Impl) (bytes : List Byte)
    (hf : s.file_ = ⟨bytes, 0⟩) (hlen : 96 ≤ bytes.length) :
    header_nsymbt host u s = int32_at host bytes 92 := by
  simp (disch := omega) only [header_nsymbt, hf, skip_mk, read_int_mk, Nat.zero_add]

theorem front_header_extend (host : Endian) (u : Uninit) (s : Impl) (bytes : List Byte)
    (hf : s.file_ = ⟨bytes, 0⟩) (hlen : 40 ≤ bytes.length) :
    (front_header host u s).extend =
      (int32_at host bytes 28, int32_at host bytes 32, int32_at host bytes 36) := by
  simp (disch := omega) only [front_header, hf, skip_mk, read_int32_ivec__mk, Nat.zero_add,
    Nat.reduceAdd]

theorem front_header_crs_to_xyz (host : Endian) (u : Uninit) (s : Impl) (bytes : List Byte)
    (hf : s.file_ = ⟨bytes, 0⟩) (hlen : 76 ≤ bytes.length) :
    (front_header host u s).crs_to_xyz =
      if !colummn_row_section_order_valid_ (wrap32 (int32_at host bytes 64 - 1),
          wrap32 (int32_at host bytes 68 - 1), wrap32 (int32_at host bytes 72 - 1)) then (0, 1, 2)
      else (wrap32 (int32_at host bytes 64 - 1), wrap32 (int32_at host bytes 68 - 1),
          wrap32 (int32_at host bytes 72 - 1)) := by
  simp (disch := omega) only [front_header, hf, skip_mk, read_int32_ivec__mk, Nat.zero_add,
    Nat.reduceAdd]

/-- Whatever the file holds, the axis order that words 1-23 leave is one of the six
orderings. -/
theorem front_header_crs_to_xyz_mem (host : Endian) (u : Uninit) (s : Impl) :
    (front_header host u s).crs_to_xyz ∈ axis_orders := by
  simp only [front_header]
  split
  · simp [axis_orders]
  · rename_i h
    simp only [Bool.not_eq_true, Bool.not_eq_true'] at h
    exact axis_orders_of_valid _ (by simpa using h)

/-- The voxel loop returns when the `int` product of the extent is not negative, with as
many voxels as the product. -/
theorem read_mrc_data__length (host : Endian) (s : Impl) (ex ey ez : Int)
    (hext : s.header_.extend = (ex, ey, ez)) (hn : 0 ≤ wrap32 (wrap32 (ex * ey) * ez)) :
    ∃ s', read_mrc_data_ host s = .ok s' ∧ s'.header_ = s.header_ ∧
      s'.data_.length = (wrap32 (wrap32 (ex * ey) * ez)).toNat := by
  have hnn : ¬ (wrap32 (wrap32 (ex * ey) * ez) < 0) := by omega
  simp only [read_mrc_data_, hext, hnn, if_false]
  exact ⟨_, rfl, rfl, by simp only [read_floats_length, resize_length]⟩

theorem ok_of_isSome (r : Except Fault Impl) (h : r.toOption.isSome = true) :
    ∃ s, r = .ok s := by
  cases r with
  | error e => simp [Except.toOption] at h
  | ok s => exact ⟨s, rfl⟩

/-- Without the crystallographic branch the header takes 1024 bytes: a decode that starts at
offset 0 of a file of at least 1024 bytes, with arrays of the declared sizes, ends at
offset 1024. -/
theorem header_ends_at_1024 (host : Endian) (u : Uninit) (s s' : Impl)
    (h : read_mrc_header_ host u s = .ok s')
    (hc : s.header_.is_crystallographic = false)
    (h13 : s.header_.extraskew.length = 13) (h15 : s.header_.extra.length = 15)
    (h10 : s.header_.labels.length = 10)
    (hpos : s.file_.pos = 0) (hlen : 1024 ≤ s.file_.bytes.length) :
    s'.file_ = ⟨s.file_.bytes, 1024⟩ := by
  have hf : s.file_ = ⟨s.file_.bytes, 0⟩ := by
    rw [← hpos]
  rw [(read_mrc_header__ok host u s s' h).2, finish_header_file_, header_state_file_ host u s hc,
    h13, h15, h10, hf]
  simp (disch := omega) only [skip_mk, Nat.reduceMul, Nat.reduceAdd, Nat.zero_add]

/-! ## The label block and the other members read after word 24 -/

theorem fread_fst_length (buf : List Byte) (f : FileStream) :
    (fread buf f).1.length = buf.length := by
  simp only [fread, List.length_append, List.length_take, List.length_drop]
  omega

theorem read_labels_all_80 (u : Uninit) (j : Nat) (ls : List CString) (f : FileStream) :
    ∀ l ∈ (read_labels u j ls f).1, l.length = 80 := by
  induction ls generalizing f j with
  | nil => simp [read_labels]
  | cons x xs ih =>
    intro l hl
    simp only [read_labels, List.mem_cons] at hl
    rcases hl with rfl | hl
    · simp only [fread_fst_length, List.length_map, List.length_range]
    · exact ih _ _ l hl

theorem read_labels_mk (u : Uninit) (j : Nat) (ls : List CString) (bytes : List Byte) (p : Nat)
    (h : p + 80 * ls.length ≤ bytes.length) :
    read_labels u j ls ⟨bytes, p⟩ =
      ((List.range ls.length).map (fun i => (bytes.drop (p + 80 * i)).take 80),
        ⟨bytes, p + 80 * ls.length⟩) := by
  induction ls generalizing p j with
  | nil => simp [read_labels]
  | cons x xs ih =>
    simp only [List.length_cons] at h
    have h2 : p + 80 + 80 * xs.length ≤ bytes.length := by omega
    simp only [read_labels]
    generalize hb : (List.range 80).map (u.labelToRead j) = buf
    have hl : buf.length = 80 := by
      rw [← hb]
      simp only [List.length_map, List.length_range]
    have h1 : p + buf.length ≤ bytes.length := by omega
    rw [fread_mk _ _ _ h1, hl]
    simp only [ih (j + 1) (p + 80) h2, List.length_cons, List.range_succ_eq_map, List.map_cons,
      List.map_map, Nat.mul_zero, Nat.add_zero, Prod.mk.injEq, List.cons.injEq, true_and,
      FileStream.mk.injEq]
    refine ⟨?_, by omega⟩
    apply List.map_congr_left
    intro i _
    simp only [Function.comp_apply]
    congr 2
    omega

/-- The state the skew block leaves: `read_skew` after words 1-24. -/
theorem header_state_back (host : Endian) (u : Uninit) (s : Impl) :
    (header_state host u s).header_.labels =
      (read_labels u 0 s.header_.labels ((read_skew host (mid_state host u s)).file_.skip
        (4 * s.header_.extra.length + 16))).1 ∧
    (header_state host u s).header_.machine_stamp =
      (read_int host (byte_order_mismatch host u s.file_.bytes) s.header_.machine_stamp
        ((read_skew host (mid_state host u s)).file_.skip (4 * s.header_.extra.length + 4))).1 ∧
    (header_state host u s).header_.num_labels =
      (read_int host (byte_order_mismatch host u s.file_.bytes) s.header_.num_labels
        ((read_skew host (mid_state host u s)).file_.skip (4 * s.header_.extra.length + 12))).1 ∧
    (header_state host u s).header_.num_bytes_extened_header =
      s.header_.num_bytes_extened_header ∧
    (header_state host u s).header_.extended_header = s.header_.extended_header ∧
    (header_state host u s).header_.has_skew_matrix =
      (read_skew host (mid_state host u s)).header_.has_skew_matrix ∧
    (header_state host u s).header_.skew_matrix =
      (read_skew host (mid_state host u s)).header_.skew_matrix ∧
    (header_state host u s).header_.skew_translation =
      (read_skew host (mid_state host u s)).header_.skew_translation ∧
    (header_state host u s).header_.extraskew =
      (read_skew host (mid_state host u s)).header_.extraskew := by
  rw [header_state_eq]
  simp only [back_header]
  rw [read_skew_header_]
  simp only [mid_state, front_header, and_self]

/-- The voxel loop assigns `data_` and `file_` only. -/
theorem read_mrc_data__frame (host : Endian) (s s' : Impl) (h : read_mrc_data_ host s = .ok s') :
    s'.header_ = s.header_ ∧ s'.file_size_ = s.file_size_ := by
  simp only [read_mrc_data_] at h
  split at h
  · cases h
  · injection h with h
    subst h
    exact ⟨rfl, rfl⟩

/-- A constructor call that returns went through a header decode and a voxel decode that
returned. -/
theorem MrcFileView_ok (host : Endian) (u : Uninit) (h0 : MrcHeader) (file : List Byte)
    (s : Impl) (h : MrcFileView host u h0 file = .ok s) :
    ∃ s1, read_mrc_header_ host u (Impl.open h0 file) = .ok s1 ∧ read_mrc_data_ host s1 = .ok s := by
  unfold MrcFileView at h
  generalize read_mrc_header_ host u (Impl.open h0 file) = r at h
  cases r with
  | error e => cases h
  | ok s1 => exact ⟨s1, rfl, h⟩

theorem decode_of_isSome (r : Except Fault Impl) (g : Impl → Except Fault Impl)
    (h : (r.toOption.bind (fun s => (g s).toOption)).isSome = true) :
    ∃ s s', r = .ok s ∧ g s = .ok s' := by
  cases r with
  | error e => simp [Except.toOption] at h
  | ok s =>
    simp only [Except.toOption, Option.some_bind] at h
    obtain ⟨s', hs'⟩ := ok_of_isSome (g s) h
    exact ⟨s, s', rfl, hs'⟩

/-! ## The skew block after words 1-24 -/

/-- Without the crystallographic branch: 13 floats go to `extraskew`. -/
theorem skew_state_plain (host : Endian) (u : Uninit) (s : Impl)
    (hc : s.header_.is_crystallographic = false) :
    (read_skew host (mid_state host u s)).file_ =
      s.file_.skip (96 + 4 * s.header_.extraskew.length) ∧
    (read_skew host (mid_state host u s)).header_.extraskew =
      (read_floats host (byte_order_mismatch host u s.file_.bytes) s.header_.extraskew
        (s.file_.skip 96)).1 ∧
    (read_skew host (mid_state host u s)).header_.has_skew_matrix = s.header_.has_skew_matrix ∧
    (read_skew host (mid_state host u s)).header_.skew_matrix = s.header_.skew_matrix ∧
    (read_skew host (mid_state host u s)).header_.skew_translation =
      s.header_.skew_translation := by
  have hc2 : (mid_state host u s).header_.is_crystallographic = false := hc
  rw [read_skew_of_not_crystallographic _ _ hc2]
  simp only [mid_state, front_header, skip_skip, and_self]

/-- The labels before the final `resize`: as many as before, each of 80 characters. -/
theorem header_state_labels (host : Endian) (u : Uninit) (s : Impl) :
    (header_state host u s).header_.labels.length = s.header_.labels.length ∧
      ∀ l ∈ (header_state host u s).header_.labels, l.length = 80 := by
  rw [(header_state_back host u s).1]
  exact ⟨read_labels_length _ _ _ _, read_labels_all_80 _ _ _ _⟩

/-- Without the crystallographic branch, on a file of at least 1024 bytes, the labels are the
ten runs of 80 bytes from offset 224. -/
theorem header_state_labels_verbatim (host : Endian) (u : Uninit) (s : Impl)
    (hc : s.header_.is_crystallographic = false)
    (h13 : s.header_.extraskew.length = 13) (h15 : s.header_.extra.length = 15)
    (h10 : s.header_.labels.length = 10)
    (hpos : s.file_.pos = 0) (hlen : 1024 ≤ s.file_.bytes.length) :
    (header_state host u s).header_.labels =
      (List.range 10).map (fun j => (s.file_.bytes.drop (224 + 80 * j)).take 80) := by
  have hf : s.file_ = ⟨s.file_.bytes, 0⟩ := by
    rw [← hpos]
  rw [(header_state_back host u s).1, (skew_state_plain host u s hc).1, h13, h15, hf]
  simp (disch := omega) only [skip_mk, Nat.reduceMul, Nat.reduceAdd, Nat.zero_add]
  rw [read_labels_mk _ _ _ _ _ (by rw [h10]; omega), h10]

theorem finish_header_labels (n : Nat) (s : Impl) :
    (finish_header n s).header_.labels = s.header_.labels := rfl

theorem finish_header_is_crystallographic (n : Nat) (s : Impl) :
    (finish_header n s).header_.is_crystallographic = s.header_.is_crystallographic := rfl

/-- The first `n` bytes that `fread` delivers at offset 0 depend on the first `n` bytes of the
file only. -/
theorem fread_fst_of_take (buf : List Byte) (b1 b2 : List Byte)
    (h : b1.take buf.length = b2.take buf.length) :
    (fread buf ⟨b1, 0⟩).1 = (fread buf ⟨b2, 0⟩).1 := by
  simp only [fread, List.drop_zero, h]

theorem byte_order_mismatch_of_take (host : Endian) (u : Uninit) (b1 b2 : List Byte)
    (h : b1.take 4 = b2.take 4) :
    byte_order_mismatch host u b1 = byte_order_mismatch host u b2 := by
  have h2 : b1.take (host_bytes host 4 (to_unsigned 32 u.number_columns)).length =
      b2.take (host_bytes host 4 (to_unsigned 32 u.number_columns)).length := by
    rw [host_bytes_length]; exact h
  simp only [byte_order_mismatch, read_int, read, CType.sizeof, fread_fst_of_take _ _ _ h2]

theorem header_state_space_group (host : Endian) (u : Uninit) (s : Impl) :
    (header_state host u s).header_.space_group =
      (read_int host (byte_order_mismatch host u s.file_.bytes) s.header_.space_group
        (s.file_.skip 88)).1 := by
  rw [header_state_eq]
  simp only [back_header]
  rw [read_skew_header_]
  simp only [mid_state, front_header]

theorem read_int32_swap (host : Endian) (sw : Bool) (result : Nat) (f : FileStream) :
    read host .int32_t sw result f = read host .int32_t false result f := by
  simp only [read, swap_value_int32, ite_self]

theorem read_int_swap (host : Endian) (sw : Bool) (r : Int) (f : FileStream) :
    read_int host sw r f = read_int host false r f := by
  simp only [read_int, read_int32_swap host sw]

theorem finish_header_extended_header (n : Nat) (s : Impl) :
    (finish_header n s).header_.extended_header = resize s.header_.extended_header n 0 := rfl

theorem finish_header_header_ints (n : Nat) (s : Impl) :
    (finish_header n s).header_.num_crs = s.header_.num_crs ∧
    (finish_header n s).header_.mrc_data_mode = s.header_.mrc_data_mode ∧
    (finish_header n s).header_.crs_start = s.header_.crs_start ∧
    (finish_header n s).header_.space_group = s.header_.space_group ∧
    (finish_header n s).header_.machine_stamp = s.header_.machine_stamp ∧
    (finish_header n s).header_.num_labels = s.header_.num_labels :=
  ⟨rfl, rfl, rfl, rfl, rfl, rfl⟩

/-- The `int` members that words 1-23 settle, on a file read from offset 0. -/
theorem front_header_ints (host : Endian) (u : Uninit) (s : Impl) (bytes : List Byte)
    (hf : s.file_ = ⟨bytes, 0⟩) (hlen : 92 ≤ bytes.length) :
    (front_header host u s).num_crs =
      (int32_at host bytes 0, int32_at host bytes 4, int32_at host bytes 8) ∧
    (front_header host u s).mrc_data_mode = int32_at host bytes 12 ∧
    (front_header host u s).crs_start =
      (int32_at host bytes 16, int32_at host bytes 20, int32_at host bytes 24) ∧
    (front_header host u s).space_group = int32_at host bytes 88 := by
  simp (disch := omega) only [front_header, hf, skip_mk, read_int32_ivec__mk, read_int_mk,
    Nat.zero_add, Nat.reduceAdd, and_self]

/-- Machine stamp and label count without the crystallographic branch, on a file of at least
1024 bytes read from offset 0. -/
theorem header_state_back_ints (host : Endian) (u : Uninit) (s : Impl) (bytes : List Byte)
    (hc : s.header_.is_crystallographic = false)
    (h13 : s.header_.extraskew.length = 13) (h15 : s.header_.extra.length = 15)
    (hf : s.file_ = ⟨bytes, 0⟩) (hlen : 1024 ≤ bytes.length) :
    (header_state host u s).header_.machine_stamp = int32_at host bytes 212 ∧
    (header_state host u s).header_.num_labels = int32_at host bytes 220 := by
  obtain ⟨_, b2, b3, _⟩ := header_state_back host u s
  rw [b2, b3, (skew_state_plain host u s hc).1, h13, h15, hf]
  simp (disch := omega) only [skip_mk, read_int_mk, Nat.reduceMul, Nat.reduceAdd, Nat.zero_add,
    and_self]

/-! ## The swap code of `read<float>` -/

theorem and_mask_byte (u k : Nat) : u &&& (255 <<< k) = ((u >>> k) % 256) <<< k := by
  apply Nat.eq_of_testBit_eq
  intro i
  have h255 : (255 : Nat) = 2 ^ 8 - 1 := by norm_num
  have h256 : (256 : Nat) = 2 ^ 8 := by norm_num
  rw [h255, h256]
  simp only [Nat.testBit_and, Nat.testBit_shiftLeft, Nat.testBit_mod_two_pow,
    Nat.testBit_shiftRight, Nat.testBit_two_pow_sub_one]
  by_cases h : k ≤ i
  · by_cases h2 : i - k < 8
    · simp [h, h2, show k + (i - k) = i by omega]
    · simp [h, h2]
  · simp [h]

theorem or_bytes (a b c d : Nat) (ha : a < 256) (hb : b < 256) (hc : c < 256) :
    a ||| b * 256 ||| c * 65536 ||| d * 16777216 = a + b * 256 + c * 65536 + d * 16777216 := by
  have e1 : a ||| b * 256 = a + b * 256 := by
    rw [Nat.or_comm, Nat.mul_comm, show (256 : Nat) = 2 ^ 8 by norm_num,
      ← Nat.mul_add_lt_is_or (by omega) b]
    omega
  have e2 : a + b * 256 ||| c * 65536 = a + b * 256 + c * 65536 := by
    rw [Nat.or_comm, Nat.mul_comm c, show (65536 : Nat) = 2 ^ 16 by norm_num,
      ← Nat.mul_add_lt_is_or (by omega) c]
    omega
  have e3 : a + b * 256 + c * 65536 ||| d * 16777216 = a + b * 256 + c * 65536 + d * 16777216 := by
    rw [Nat.or_comm, Nat.mul_comm d, show (16777216 : Nat) = 2 ^ 24 by norm_num,
      ← Nat.mul_add_lt_is_or (by omega) d]
    omega
  rw [e1, e2, e3]

/-- The expression of the `float` branch is the reversal of the four bytes of its operand. -/
theorem swap_expr32_eq (u : Nat) :
    swap_expr32 u = le_val (le_bytes 4 u).reverse := by
  have m3 : (0xFF000000 : Nat) = 255 <<< 24 := by decide
  have m2 : (0x00FF0000 : Nat) = 255 <<< 16 := by decide
  have m1 : (0x0000FF00 : Nat) = 255 <<< 8 := by decide
  have m0 : (0x000000FF : Nat) = 255 <<< 0 := by decide
  have h0 : u % 256 < 256 := Nat.mod_lt _ (by decide)
  have h1 : u / 256 % 256 < 256 := Nat.mod_lt _ (by decide)
  have h2 : u / 65536 % 256 < 256 := Nat.mod_lt _ (by decide)
  have h3 : u / 16777216 % 256 < 256 := Nat.mod_lt _ (by decide)
  have t3 : (u &&& 0xFF000000) >>> 24 = u / 16777216 % 256 := by
    rw [m3, and_mask_byte]
    simp only [Nat.shiftLeft_eq, Nat.shiftRight_eq_div_pow]
    norm_num
  have t2 : (u &&& 0x00FF0000) >>> 8 = (u / 65536 % 256) * 256 := by
    rw [m2, and_mask_byte]
    simp only [Nat.shiftLeft_eq, Nat.shiftRight_eq_div_pow]
    norm_num
    omega
  have t1 : (u &&& 0x0000FF00) <<< 8 = (u / 256 % 256) * 65536 := by
    rw [m1, and_mask_byte]
    simp only [Nat.shiftLeft_eq, Nat.shiftRight_eq_div_pow]
    norm_num
    omega
  have t0 : (u &&& 0x000000FF) <<< 24 = (u % 256) * 16777216 := by
    rw [m0, and_mask_byte]
    simp only [Nat.shiftLeft_eq, Nat.shiftRight_eq_div_pow]
    norm_num
  have hs : u / 16777216 % 256 + u / 65536 % 256 * 256 + u / 256 % 256 * 65536 +
      u % 256 * 16777216 < 2 ^ 32 := by
    norm_num
    omega
  unfold swap_expr32
  rw [t3, t2, t1, t0, or_bytes _ _ _ _ h3 h2 h1, Nat.mod_eq_of_lt hs]
  clear t3 t2 t1 t0 m3 m2 m1 m0 hs
  simp only [le_bytes, List.reverse_cons, List.reverse_nil, List.nil_append, List.cons_append,
    le_val, Nat.div_div_eq_div_mul, Nat.reduceMul, Nat.mul_zero, Nat.add_zero]
  omega

theorem decode_one : binary32.decode 0x3F800000 = .fin false 8388608 (-23) := by decide

theorem decode_minus_one : binary32.decode 0xBF800000 = .fin true 8388608 (-23) := by decide

/-- A finite datum of magnitude below 1 has integral part 0. -/
theorem trunc_fin_of_lt_one (neg : Bool) (m : Nat) (e : Int)
    (h : m * 2 ^ (e - min e (-23)).toNat < 8388608 * 2 ^ (-23 - min e (-23)).toNat) :
    (FVal.fin neg m e).trunc = some 0 := by
  have hmag : (if 0 ≤ e then m * 2 ^ e.toNat else m / 2 ^ (-e).toNat) = 0 := by
    by_cases he : 0 ≤ e
    · rw [if_pos he]
      have e0 : min e (-23) = -23 := by omega
      rw [e0] at h
      have e1 : (e - -23).toNat = e.toNat + 23 := by omega
      have e2 : ((-23 : Int) - -23).toNat = 0 := by decide
      rw [e1, e2, pow_add] at h
      by_contra hne
      have h1 : 1 ≤ m * 2 ^ e.toNat := Nat.one_le_iff_ne_zero.mpr hne
      have h2 : m * (2 ^ e.toNat * 2 ^ 23) = (m * 2 ^ e.toNat) * 8388608 := by ring
      rw [h2] at h
      simp only [pow_zero, Nat.mul_one] at h
      omega
    · rw [if_neg he]
      apply Nat.div_eq_of_lt
      by_cases h23 : -23 ≤ e
      · have e0 : min e (-23) = -23 := by omega
        rw [e0] at h
        have e2 : ((-23 : Int) - -23).toNat = 0 := by decide
        have e3 : (-e).toNat + (e - -23).toNat = 23 := by omega
        rw [e2] at h
        have h3 : (2 : Nat) ^ (-e).toNat * 2 ^ (e - -23).toNat = 8388608 := by
          rw [← pow_add, e3]
          norm_num
        simp only [pow_zero, Nat.mul_one] at h
        rw [← h3] at h
        exact Nat.lt_of_mul_lt_mul_right h
      · have e0 : min e (-23) = e := by omega
        rw [e0] at h
        have e1 : (e - e).toNat = 0 := by omega
        have e3 : 23 + (-23 - e).toNat = (-e).toNat := by omega
        rw [e1] at h
        simp only [pow_zero, Nat.mul_one] at h
        rw [← e3, pow_add]
        norm_num
        exact h
  simp only [FVal.trunc, hmag]
  cases neg <;> rfl

/-- A `float` that lies strictly between `-1.0` and `1.0` has integral part 0. -/
theorem trunc_of_abs_lt_one (x : FVal)
    (h1 : FVal.lt x (binary32.decode 0x3F800000) = true)
    (h2 : FVal.lt (binary32.decode 0xBF800000) x = true) : x.trunc = some 0 := by
  rw [decode_one] at h1
  rw [decode_minus_one] at h2
  cases x with
  | nan => simp [FVal.lt] at h1
  | inf s =>
    simp only [FVal.lt] at h1 h2
    rw [h1] at h2
    simp at h2
  | fin neg m e =>
    apply trunc_fin_of_lt_one
    simp only [FVal.lt, decide_eq_true_eq] at h1 h2
    cases neg
    · simp only [Bool.false_eq_true, if_false, one_mul] at h1
      exact_mod_cast h1
    · simp only [if_true, neg_mul, one_mul, neg_lt_neg_iff] at h2
      rw [min_comm] at h2
      exact_mod_cast h2

theorem swap_value_float (v : Nat) :
    swap_value .float v =
      uint_to_float binary32 (swap_expr32 (to_unsigned 32 (float_to_int binary32 32 v))) := by
  simp [swap_value]

theorem float_to_int_of_trunc (v : Nat) (t : Int) (h : (binary32.decode v).trunc = some t)
    (h1 : -2147483648 ≤ t) (h2 : t < 2147483648) : float_to_int binary32 32 v = t := by
  simp only [float_to_int, h]
  norm_num
  intro h3
  omega

/-! ## Reads at the end of the stream -/

theorem fread_eof (buf : List Byte) (bytes : List Byte) (p : Nat) (h : bytes.length ≤ p) :
    fread buf ⟨bytes, p⟩ = (buf, ⟨bytes, p⟩) := by
  simp only [fread, List.drop_eq_nil_of_le h, List.take_nil, List.nil_append, List.length_nil,
    List.drop_zero, Nat.add_zero]

/-- At the end of the stream `read<float>` leaves a `0.0` as it is. -/
theorem read_float_eof_zero (host : Endian) (bytes : List Byte) (p : Nat)
    (h : bytes.length ≤ p) :
    read_float host false 0 ⟨bytes, p⟩ = (0, ⟨bytes, p⟩) := by
  simp only [read_float, read, fread_eof _ _ _ h, Bool.false_eq_true, if_false]
  cases host <;> rfl

theorem read_floats_eof_zeros (host : Endian) (m : Nat) (bytes : List Byte) (p : Nat)
    (h : bytes.length ≤ p) :
    read_floats host false (List.replicate m 0) ⟨bytes, p⟩ = (List.replicate m 0, ⟨bytes, p⟩) := by
  induction m with
  | zero => rfl
  | succ m ih => simp only [List.replicate_succ, read_floats, read_float_eof_zero host bytes p h, ih]

theorem read_floats_append (host : Endian) (sw : Bool) (xs ys : List Nat) (f : FileStream) :
    read_floats host sw (xs ++ ys) f =
      ((read_floats host sw xs f).1 ++ (read_floats host sw ys (read_floats host sw xs f).2).1,
        (read_floats host sw ys (read_floats host sw xs f).2).2) := by
  induction xs generalizing f with
  | nil => simp only [List.nil_append, read_floats]
  | cons x xs ih =>
    rw [List.cons_append]
    simp only [read_floats]
    rw [ih]
    simp only [List.cons_append]

/-- The voxel loop on a stream that ends after `k` of the `n` voxels, without byte swapping. -/
theorem read_floats_short (host : Endian) (n k : Nat) (bytes : List Byte) (p : Nat)
    (hend : bytes.length = p + 4 * k) (hk : k ≤ n) :
    read_floats host false (List.replicate n 0) ⟨bytes, p⟩ =
      ((List.range k).map (fun i => float_at host bytes (p + 4 * i)) ++ List.replicate (n - k) 0,
        ⟨bytes, p + 4 * k⟩) := by
  have hn : List.replicate n (0 : Nat) = List.replicate k 0 ++ List.replicate (n - k) 0 := by
    rw [← List.replicate_add, Nat.add_sub_cancel' hk]
  have h1 := read_floats_mk host (List.replicate k 0) bytes p
    (by rw [List.length_replicate]; omega)
  rw [List.length_replicate] at h1
  rw [hn, read_floats_append, h1, read_floats_eof_zeros host _ bytes _ (by omega)]

/-! ## Two files that differ in the data mode only -/

theorem skip_same_tail (f g : FileStream) (n : Nat) (h : f.same_tail g) :
    (f.skip n).same_tail (g.skip n) := by
  obtain ⟨h1, h2, h3⟩ := h
  refine ⟨?_, h2, ?_⟩
  · simp only [FileStream.skip, h1, h2]
  · simp only [FileStream.skip]
    rw [← List.drop_drop, ← List.drop_drop, h3, h1, h2]

theorem fread_same_tail (buf : List Byte) (f g : FileStream) (h : f.same_tail g) :
    (fread buf f).1 = (fread buf g).1 ∧ (fread buf f).2.same_tail (fread buf g).2 := by
  refine ⟨?_, ?_⟩
  · simp only [fread, h.2.2]
  · rw [fread_snd, fread_snd]
    exact skip_same_tail f g _ h

theorem read_same_tail (host : Endian) (T : CType) (sw : Bool) (r : Nat) (f g : FileStream)
    (h : f.same_tail g) :
    (read host T sw r f).1 = (read host T sw r g).1 ∧
      (read host T sw r f).2.same_tail (read host T sw r g).2 := by
  refine ⟨?_, ?_⟩
  · simp only [read, (fread_same_tail _ f g h).1]
  · rw [read_snd, read_snd]
    exact skip_same_tail f g _ h

theorem read_int_same_tail (host : Endian) (sw : Bool) (r : Int) (f g : FileStream)
    (h : f.same_tail g) :
    (read_int host sw r f).1 = (read_int host sw r g).1 ∧
      (read_int host sw r f).2.same_tail (read_int host sw r g).2 := by
  simp only [read_int]
  exact ⟨by rw [(read_same_tail host _ sw _ f g h).1], (read_same_tail host _ sw _ f g h).2⟩

theorem read_float_same_tail (host : Endian) (sw : Bool) (r : Nat) (f g : FileStream)
    (h : f.same_tail g) :
    (read_float host sw r f).1 = (read_float host sw r g).1 ∧
      (read_float host sw r f).2.same_tail (read_float host sw r g).2 :=
  read_same_tail host _ sw r f g h

theorem read_char_same_tail (host : Endian) (sw : Bool) (r : Byte) (f g : FileStream)
    (h : f.same_tail g) :
    (read_char host sw r f).1 = (read_char host sw r g).1 ∧
      (read_char host sw r f).2.same_tail (read_char host sw r g).2 := by
  simp only [read_char]
  exact ⟨by simp only [(read_same_tail host _ sw _ f g h).1],
    (read_same_tail host _ sw _ f g h).2⟩

theorem read_floats_same_tail (host : Endian) (sw : Bool) (xs : List Nat) (f g : FileStream)
    (h : f.same_tail g) :
    (read_floats host sw xs f).1 = (read_floats host sw xs g).1 ∧
      (read_floats host sw xs f).2.same_tail (read_floats host sw xs g).2 := by
  induction xs generalizing f g with
  | nil => exact ⟨rfl, h⟩
  | cons x xs ih =>
    obtain ⟨h1, h2⟩ := read_float_same_tail host sw x f g h
    obtain ⟨h3, h4⟩ := ih _ _ h2
    simp only [read_floats]
    exact ⟨by rw [h1, h3], h4⟩

theorem read_chars_same_tail (host : Endian) (sw : Bool) (xs : List Byte) (f g : FileStream)
    (h : f.same_tail g) :
    (read_chars host sw xs f).1 = (read_chars host sw xs g).1 ∧
      (read_chars host sw xs f).2.same_tail (read_chars host sw xs g).2 := by
  induction xs generalizing f g with
  | nil => exact ⟨rfl, h⟩
  | cons x xs ih =>
    obtain ⟨h1, h2⟩ := read_char_same_tail host sw x f g h
    obtain ⟨h3, h4⟩ := ih _ _ h2
    simp only [read_chars]
    exact ⟨by rw [h1, h3], h4⟩

theorem read_labels_same_tail (u : Uninit) (j : Nat) (ls : List CString) (f g : FileStream)
    (h : f.same_tail g) :
    (read_labels u j ls f).1 = (read_labels u j ls g).1 ∧
      (read_labels u j ls f).2.same_tail (read_labels u j ls g).2 := by
  induction ls generalizing f g j with
  | nil => exact ⟨rfl, h⟩
  | cons x xs ih =>
    obtain ⟨h1, h2⟩ := fread_same_tail ((List.range 80).map (u.labelToRead j)) f g h
    obtain ⟨h3, h4⟩ := ih (j + 1) _ _ h2
    simp only [read_labels]
    exact ⟨by rw [h1, h3], h4⟩

theorem read_int32_ivec__same_tail (host : Endian) (sw : Bool) (r : Int × Int × Int)
    (f g : FileStream) (h : f.same_tail g) :
    (read_int32_ivec_ host sw r f).1 = (read_int32_ivec_ host sw r g).1 ∧
      (read_int32_ivec_ host sw r f).2.same_tail (read_int32_ivec_ host sw r g).2 := by
  obtain ⟨h1, h2⟩ := read_int_same_tail host sw r.1 f g h
  obtain ⟨h3, h4⟩ := read_int_same_tail host sw r.2.1 _ _ h2
  obtain ⟨h5, h6⟩ := read_int_same_tail host sw r.2.2 _ _ h4
  simp only [read_int32_ivec_]
  exact ⟨by rw [h1, h3, h5], h6⟩

theorem read_float32_rvec__same_tail (host : Endian) (sw : Bool) (r : Nat × Nat × Nat)
    (f g : FileStream) (h : f.same_tail g) :
    (read_float32_rvec_ host sw r f).1 = (read_float32_rvec_ host sw r g).1 ∧
      (read_float32_rvec_ host sw r f).2.same_tail (read_float32_rvec_ host sw r g).2 := by
  obtain ⟨h1, h2⟩ := read_float_same_tail host sw r.1 f g h
  obtain ⟨h3, h4⟩ := read_float_same_tail host sw r.2.1 _ _ h2
  obtain ⟨h5, h6⟩ := read_float_same_tail host sw r.2.2 _ _ h4
  simp only [read_float32_rvec_]
  exact ⟨by rw [h1, h3, h5], h6⟩

theorem same_but_mode_intro (s t : Impl) (m : Int) (hf : s.file_.same_tail t.file_)
    (hz : s.file_size_ = t.file_size_) (hd : s.data_ = t.data_)
    (hh : t.header_ = { s.header_ with mrc_data_mode := m }) : s.same_but_mode t := by
  refine ⟨hf, hz, hd, ?_⟩
  rw [hh]

/-- A statement `reader(&header_.x)` on a member other than `mrc_data_mode`. -/
theorem rd_same_but_mode {α : Type} (reader : Bool → α → FileStream → α × FileStream)
    (get : MrcHeader → α) (set : MrcHeader → α → MrcHeader)
    (hr : ∀ sw a f g, FileStream.same_tail f g →
      (reader sw a f).1 = (reader sw a g).1 ∧ (reader sw a f).2.same_tail (reader sw a g).2)
    (hget : ∀ h m, get { h with mrc_data_mode := m } = get h)
    (hset : ∀ h m v, set { h with mrc_data_mode := m } v = { set h v with mrc_data_mode := m })
    (s t : Impl) (h : s.same_but_mode t) :
    (Impl.rd reader get set s).same_but_mode (Impl.rd reader get set t) := by
  obtain ⟨hf, hz, hd, hh⟩ := h
  have hsw : t.header_.swap_bytes = s.header_.swap_bytes := by
    rw [hh]
  have hg : get t.header_ = get s.header_ := by
    rw [hh, hget]
  obtain ⟨h1, h2⟩ := hr s.header_.swap_bytes (get s.header_) _ _ hf
  refine same_but_mode_intro _ _ t.header_.mrc_data_mode ?_ hz hd ?_
  · simp only [Impl.rd, hsw, hg]
    exact h2
  · simp only [Impl.rd, hsw, hg, ← h1]
    rw [hh, hset]

theorem upd_same_but_mode (f : MrcHeader → MrcHeader)
    (hf : ∀ h m, f { h with mrc_data_mode := m } = { f h with mrc_data_mode := m })
    (s t : Impl) (h : s.same_but_mode t) :
    (Impl.upd f s).same_but_mode (Impl.upd f t) := by
  obtain ⟨h1, hz, hd, hh⟩ := h
  refine same_but_mode_intro _ _ t.header_.mrc_data_mode h1 hz hd ?_
  simp only [Impl.upd]
  rw [hh, hf]

theorem read_skew_same_but_mode (host : Endian) (s t : Impl) (h : s.same_but_mode t) :
    (read_skew host s).same_but_mode (read_skew host t) := by
  have h0 := h
  obtain ⟨hf, hz, hd, hh⟩ := h
  have hc : t.header_.is_crystallographic = s.header_.is_crystallographic := by
    rw [hh]
  have hsw : t.header_.swap_bytes = s.header_.swap_bytes := by
    rw [hh]
  have hk : t.header_.has_skew_matrix = s.header_.has_skew_matrix := by
    rw [hh]
  cases hcs : s.header_.is_crystallographic
  · rw [read_skew_of_not_crystallographic host s hcs,
      read_skew_of_not_crystallographic host t (hc.trans hcs)]
    refine same_but_mode_intro _ _ t.header_.mrc_data_mode ?_ hz hd ?_
    · have e : t.header_.extraskew = s.header_.extraskew := by
        rw [hh]
      simp only [e]
      exact skip_same_tail _ _ _ hf
    · simp only [hsw, ← (read_floats_same_tail host s.header_.swap_bytes _ _ _ hf).1]
      rw [hh]
  · have hfl : skew_flag host t = skew_flag host s := by
      simp only [skew_flag, hsw, hk]
      exact (read_int_same_tail host _ _ _ _ hf).1.symm
    have e1 : t.header_.skew_matrix = s.header_.skew_matrix := by
      rw [hh]
    have e2 : t.header_.skew_translation = s.header_.skew_translation := by
      rw [hh]
    rw [read_skew_of_crystallographic host s hcs,
      read_skew_of_crystallographic host t (hc.trans hcs), hfl]
    by_cases h1 : skew_flag host s = 1
    · rw [if_pos h1, if_pos h1]
      refine same_but_mode_intro _ _ t.header_.mrc_data_mode ?_ hz hd ?_
      · simp only [e1]
        exact skip_same_tail _ _ _ hf
      · simp only [hsw, e1, e2,
          ← (read_floats_same_tail host s.header_.swap_bytes _ _ _
              (skip_same_tail _ _ 4 hf)).1,
          ← (read_float32_rvec__same_tail host s.header_.swap_bytes _ _ _
              (skip_same_tail _ _ (4 + 4 * s.header_.skew_matrix.length) hf)).1]
        rw [hh]
    · rw [if_neg h1, if_neg h1]
      refine same_but_mode_intro _ _ t.header_.mrc_data_mode ?_ hz hd ?_
      · exact skip_same_tail _ _ _ hf
      · simp only
        rw [hh]

theorem read_words_25_256_same_but_mode (host : Endian) (u : Uninit) (s t : Impl)
    (h : s.same_but_mode t) :
    (read_words_25_256 host u s).same_but_mode (read_words_25_256 host u t) := by
  unfold read_words_25_256
  refine rd_same_but_mode _ _ _ ?_ ?_ ?_ _ _ ?_
  · exact fun _ _ => read_labels_same_tail u 0 _
  · exact fun _ _ => rfl
  · exact fun _ _ _ => rfl
  refine rd_same_but_mode _ _ _ ?_ ?_ ?_ _ _ ?_
  · exact read_int_same_tail host
  · exact fun _ _ => rfl
  · exact fun _ _ _ => rfl
  refine rd_same_but_mode _ _ _ ?_ ?_ ?_ _ _ ?_
  · exact read_float_same_tail host
  · exact fun _ _ => rfl
  · exact fun _ _ _ => rfl
  refine rd_same_but_mode _ _ _ ?_ ?_ ?_ _ _ ?_
  · exact read_int_same_tail host
  · exact fun _ _ => rfl
  · exact fun _ _ _ => rfl
  refine rd_same_but_mode _ _ _ ?_ ?_ ?_ _ _ ?_
  · exact read_chars_same_tail host
  · exact fun _ _ => rfl
  · exact fun _ _ _ => rfl
  refine upd_same_but_mode _ ?_ _ _ ?_
  · exact fun _ _ => rfl
  refine rd_same_but_mode _ _ _ ?_ ?_ ?_ _ _ ?_
  · exact read_floats_same_tail host
  · exact fun _ _ => rfl
  · exact fun _ _ _ => rfl
  exact read_skew_same_but_mode host s t h

theorem finish_header_same_but_mode (n : Nat) (s t : Impl) (h : s.same_but_mode t) :
    (finish_header n s).same_but_mode (finish_header n t) := by
  obtain ⟨h1, hz, hd, hh⟩ := h
  refine same_but_mode_intro _ _ t.header_.mrc_data_mode h1 hz hd ?_
  simp only [finish_header]
  rw [hh]

/-- The voxel decode of two states that differ in `mrc_data_mode` only: both throw, or both
return, with the same voxels. -/
theorem read_mrc_data__same_but_mode (host : Endian) (s t : Impl) (h : s.same_but_mode t) :
    (read_mrc_data_ host s = .error .length_error ∧
      read_mrc_data_ host t = .error .length_error) ∨
    ∃ s' t', read_mrc_data_ host s = .ok s' ∧ read_mrc_data_ host t = .ok t' ∧
      s'.same_but_mode t' := by
  obtain ⟨hf, hz, hd, hh⟩ := h
  have he : t.header_.extend = s.header_.extend := by
    rw [hh]
  have hsw : t.header_.swap_bytes = s.header_.swap_bytes := by
    rw [hh]
  simp only [read_mrc_data_, he, hsw, ← hd]
  by_cases hn : wrap32 (wrap32 (s.header_.extend.1 * s.header_.extend.2.1) *
      s.header_.extend.2.2) < 0
  · simp only [hn, if_true, and_self, true_or]
  · simp only [hn, if_false]
    refine Or.inr ⟨_, _, rfl, rfl, ?_⟩
    obtain ⟨r1, r2⟩ := read_floats_same_tail host s.header_.swap_bytes
      (resize s.data_ (wrap32 (wrap32 (s.header_.extend.1 * s.header_.extend.2.1) *
        s.header_.extend.2.2)).toNat 0) _ _ hf
    exact same_but_mode_intro _ _ t.header_.mrc_data_mode r2 hz r1 hh

theorem take_drop_of_take {α : Type} (l : List α) (p n m : Nat) (h : p + n ≤ m) :
    (l.drop p).take n = ((l.take m).drop p).take n := by
  rw [List.drop_take, List.take_take, Nat.min_eq_left (by omega)]

theorem int32_at_of_take (host : Endian) (b1 b2 : List Byte) (p m : Nat) (h : p + 4 ≤ m)
    (ht : b1.take m = b2.take m) : int32_at host b1 p = int32_at host b2 p := by
  unfold int32_at
  rw [take_drop_of_take b1 p 4 m h, take_drop_of_take b2 p 4 m h, ht]

theorem skip_zero_same_tail (b1 b2 : List Byte) (k : Nat) (hlen : b1.length = b2.length)
    (h16 : 16 ≤ b1.length) (hd : b1.drop 16 = b2.drop 16) (hk : 16 ≤ k) :
    FileStream.same_tail (FileStream.skip ⟨b1, 0⟩ k) (FileStream.skip ⟨b2, 0⟩ k) := by
  refine ⟨?_, hlen, ?_⟩
  · simp only [FileStream.skip, hlen]
  · simp only [FileStream.skip, ← hlen, Nat.zero_add, Nat.sub_zero]
    have e : min k b1.length = 16 + (min k b1.length - 16) := by omega
    rw [e, ← List.drop_drop, ← List.drop_drop, hd]

/-- Words 1-23 of two files that differ in bytes 12-15 only. -/
theorem front_header_same_but_mode (host : Endian) (u : Uninit) (s t : Impl) (b1 b2 : List Byte)
    (hs : s.file_ = ⟨b1, 0⟩) (ht : t.file_ = ⟨b2, 0⟩) (hh : t.header_ = s.header_)
    (hlen : b1.length = b2.length) (h16 : 16 ≤ b1.length)
    (h12 : b1.take 12 = b2.take 12) (hd : b1.drop 16 = b2.drop 16) :
    front_header host u t =
      { front_header host u s with mrc_data_mode := int32_at host b2 12 } := by
  have hsw : byte_order_mismatch host u b2 = byte_order_mismatch host u b1 := by
    apply byte_order_mismatch_of_take
    have e := congrArg (List.take 4) h12
    simp only [List.take_take] at e
    exact e.symm
  have k16 := skip_zero_same_tail b1 b2 16 hlen h16 hd (by omega)
  have k28 := skip_zero_same_tail b1 b2 28 hlen h16 hd (by omega)
  have k40 := skip_zero_same_tail b1 b2 40 hlen h16 hd (by omega)
  have k52 := skip_zero_same_tail b1 b2 52 hlen h16 hd (by omega)
  have k64 := skip_zero_same_tail b1 b2 64 hlen h16 hd (by omega)
  have k76 := skip_zero_same_tail b1 b2 76 hlen h16 hd (by omega)
  have k80 := skip_zero_same_tail b1 b2 80 hlen h16 hd (by omega)
  have k84 := skip_zero_same_tail b1 b2 84 hlen h16 hd (by omega)
  have k88 := skip_zero_same_tail b1 b2 88 hlen h16 hd (by omega)
  have i0 := int32_at_of_take host b1 b2 0 12 (by omega) h12
  have i4 := int32_at_of_take host b1 b2 4 12 (by omega) h12
  have i8 := int32_at_of_take host b1 b2 8 12 (by omega) h12
  have hm : (read_int host (byte_order_mismatch host u b1) s.header_.mrc_data_mode
      (FileStream.skip ⟨b2, 0⟩ 12)).1 = int32_at host b2 12 := by
    simp (disch := omega) only [skip_mk, read_int_mk, Nat.zero_add]
  simp only [front_header, hs, ht, hh, hsw, hm,
    read_int32_ivec__mk host _ _ b1 0 (by omega), read_int32_ivec__mk host _ _ b2 0 (by omega),
    Nat.zero_add, i0, i4, i8,
    (read_int32_ivec__same_tail host _ _ _ _ k16).1,
    (read_int32_ivec__same_tail host _ _ _ _ k28).1,
    (read_float32_rvec__same_tail host _ _ _ _ k40).1,
    (read_float32_rvec__same_tail host _ _ _ _ k52).1,
    (read_int32_ivec__same_tail host _ _ _ _ k64).1,
    (read_float_same_tail host _ _ _ _ k76).1,
    (read_float_same_tail host _ _ _ _ k80).1,
    (read_float_same_tail host _ _ _ _ k84).1,
    (read_int_same_tail host _ _ _ _ k88).1]

/-- The header decode of two files that differ in bytes 12-15 only, up to the final
`resize`. -/
theorem header_state_same_but_mode (host : Endian) (u : Uninit) (s t : Impl) (b1 b2 : List Byte)
    (hs : s.file_ = ⟨b1, 0⟩) (ht : t.file_ = ⟨b2, 0⟩) (hh : t.header_ = s.header_)
    (hdat : s.data_ = t.data_)
    (hlen : b1.length = b2.length) (h16 : 16 ≤ b1.length)
    (h12 : b1.take 12 = b2.take 12) (hd : b1.drop 16 = b2.drop 16) :
    (header_state host u s).same_but_mode (header_state host u t) ∧
    header_nsymbt host u t = header_nsymbt host u s := by
  have hsw : byte_order_mismatch host u b2 = byte_order_mismatch host u b1 := by
    apply byte_order_mismatch_of_take
    have e := congrArg (List.take 4) h12
    simp only [List.take_take] at e
    exact e.symm
  refine ⟨?_, ?_⟩
  · unfold header_state
    apply read_words_25_256_same_but_mode
    refine same_but_mode_intro _ _ (int32_at host b2 12) ?_ ?_ ?_ ?_
    · simp only [mid_state, hs, ht]
      exact skip_zero_same_tail b1 b2 96 hlen h16 hd (by omega)
    · simp only [mid_state, hs, ht, hlen]
    · simp only [mid_state, hdat]
    · simp only [mid_state]
      exact front_header_same_but_mode host u s t b1 b2 hs ht hh hlen h16 h12 hd
  · simp only [header_nsymbt, hs, ht, hsw]
    exact (read_int_same_tail host _ _ _ _
      (skip_zero_same_tail b1 b2 92 hlen h16 hd (by omega))).1.symm

/-- Both decodes of two files that differ in bytes 12-15 only: both throw, or both return
states that differ in `mrc_data_mode` only. -/
theorem MrcFileView_same_but_mode (host : Endian) (u : Uninit) (h0 : MrcHeader)
    (b1 b2 : List Byte) (hlen : b1.length = b2.length) (h16 : 16 ≤ b1.length)
    (h12 : b1.take 12 = b2.take 12) (hd : b1.drop 16 = b2.drop 16) :
    (MrcFileView host u h0 b1 = .error .length_error ∧
      MrcFileView host u h0 b2 = .error .length_error) ∨
    ∃ s t, MrcFileView host u h0 b1 = .ok s ∧ MrcFileView host u h0 b2 = .ok t ∧
      s.same_but_mode t := by
  obtain ⟨hst, hns⟩ := header_state_same_but_mode host u (Impl.open h0 b1) (Impl.open h0 b2)
    b1 b2 rfl rfl rfl rfl hlen h16 h12 hd
  unfold MrcFileView
  rw [read_mrc_header__eq, read_mrc_header__eq, hns]
  by_cases hn : header_nsymbt host u (Impl.open h0 b1) < 0
  · simp only [if_pos hn, and_self, true_or]
  · simp only [if_neg hn]
    exact read_mrc_data__same_but_mode host _ _
      (finish_header_same_but_mode _ _ _ hst)

/-- The data mode a decode returns is word 4 of the file, in the byte order of the machine. -/
theorem MrcFileView_mrc_data_mode (host : Endian) (u : Uninit) (h0 : MrcHeader)
    (b : List Byte) (s : Impl) (h16 : 16 ≤ b.length) (h : MrcFileView host u h0 b = .ok s) :
    s.header_.mrc_data_mode = int32_at host b 12 := by
  obtain ⟨s1, h1, h2⟩ := MrcFileView_ok host u h0 b s h
  rw [(read_mrc_data__frame host s1 s h2).1, (read_mrc_header__ok host u _ s1 h1).2,
    (finish_header_header_ints _ _).2.1, (header_state_front host u _).2.2.2.1]
  simp only [front_header, Impl.open]
  simp (disch := omega) only [skip_mk, read_int_mk, Nat.zero_add]

/-! ## The two alternatives for words 25-37 -/

/-- C1: on a file whose first `int` is in `1..65535`, whose NSYMBT word (bytes 92-95) is 0,
whose extent (three `int`s at bytes 28-39) is positive with a product `n` below `2^31`, and
which holds at least `1024 + 4 * n` bytes, `MrcFileView` returns; `header_.extend` is that
extent, whatever bytes 0-11 hold beyond the range of the first word, and `data_` has length `n`
with the `float` stored at byte `1024 + 4 * i` as its `i`-th element. -/
theorem MrcFileView_matching_order (host : Endian) (u : Uninit) (h0 : MrcHeader)
    (file : List Byte)
    (hfirst : 1 ≤ int32_at host file 0 ∧ int32_at host file 0 ≤ 65535)
    (hk : int32_at host file 92 = 0)
    (hx : 0 < int32_at host file 28) (hy : 0 < int32_at host file 32)
    (hz : 0 < int32_at host file 36)
    (hprod : int32_at host file 28 * int32_at host file 32 * int32_at host file 36 < 2147483648)
    (hlen : 1024 + 4 * (int32_at host file 28 * int32_at host file 32 *
      int32_at host file 36).toNat ≤ file.length) :
    ∃ s, MrcFileView host u h0 file = .ok s ∧
      s.header_.extend = (int32_at host file 28, int32_at host file 32, int32_at host file 36) ∧
      s.data_.length =
        (int32_at host file 28 * int32_at host file 32 * int32_at host file 36).toNat ∧
      s.data_ = (List.range (int32_at host file 28 * int32_at host file 32 *
        int32_at host file 36).toNat).map (fun i => float_at host file (1024 + 4 * i)) := by
  have hsw : byte_order_mismatch host u file = false := by
    rw [byte_order_mismatch_eq host u file (by omega)]
    simp only [decide_eq_false_iff_not]
    omega
  have hnb : header_nsymbt host u (Impl.open h0 file) = 0 := by
    simp (disch := omega) only [header_nsymbt, Impl.open, skip_mk, read_int_mk, Nat.zero_add, hk]
  have hok : read_mrc_header_ host u (Impl.open h0 file) =
      .ok (finish_header 0 (header_state host u (Impl.open h0 file))) := by
    rw [read_mrc_header__eq, hnb]
    simp only [lt_self_iff_false, if_false, Int.toNat_zero]
  have hfr := header_state_front host u (Impl.open h0 file)
  have hcr : (Impl.open h0 file).header_.is_crystallographic = false := by
    simp only [Impl.open, setEMDBDefaults]
  have hfile := header_state_file_ host u (Impl.open h0 file) hcr
  have hdata := header_state_data_ host u (Impl.open h0 file)
  have hext : (finish_header 0 (header_state host u (Impl.open h0 file))).header_.extend =
      (int32_at host file 28, int32_at host file 32, int32_at host file 36) := by
    rw [finish_header_extend, hfr.2.2.2.2.2.1]
    simp (disch := omega) only [front_header, Impl.open, skip_mk, read_int32_ivec__mk,
      Nat.zero_add, Nat.reduceAdd]
  have hfile2 : (finish_header 0 (header_state host u (Impl.open h0 file))).file_ =
      ⟨file, 1024⟩ := by
    rw [finish_header_file_, hfile]
    simp (disch := omega) only [Impl.open, setEMDBDefaults, List.length_replicate,
      List.length_cons, Nat.reduceMul, Nat.reduceAdd, skip_mk, Nat.zero_add]
  have hdata2 : (finish_header 0 (header_state host u (Impl.open h0 file))).data_ = [] := by
    rw [finish_header_data_, hdata]
    simp only [Impl.open]
  have hsw2 : (finish_header 0 (header_state host u (Impl.open h0 file))).header_.swap_bytes =
      false := by
    rw [finish_header_swap_bytes, hfr.1]
    exact hsw
  exact MrcFileView_of_header host u h0 file _ 1024 _ _ _ hok hsw2 hext hfile2 hdata2 hx hy hz
    hprod hlen

/-- The sample file with extent `(2, 2, 1)` and voxels `1.0, 2.0, 3.0, 4.0` decodes to that
extent and to `[1.0, 2.0, 3.0, 4.0]`. -/
theorem MrcFileView_matching_order_witness :
    (MrcFileView .little sample_uninit sample_header sample_file).toOption.map
        (fun s => (s.header_.extend, s.data_)) =
      some ((2, 2, 1), [0x3F800000, 0x40000000, 0x40400000, 0x40800000]) := by
  obtain ⟨s, h1, h2, _, h4⟩ := MrcFileView_matching_order .little sample_uninit sample_header
    sample_file (by decide!) (by decide!) (by decide!) (by decide!) (by decide!) (by decide!)
    (by decide!)
  rw [h1]
  simp only [Except.toOption, Option.map_some', h2, h4]
  decide!

/-- C2: the sample file and the same fields and voxels with the bytes of every 4-byte field
reversed do not decode alike on a little-endian machine. The reversed file triggers the
mismatch detection, yet `read_mrc_header_` stores its extent unreversed
(`33554432 = 0x02000000`, `16777216 = 0x01000000`) and the cell lengths `2.0, 2.0, 1.0`
as `0.0`; the voxel array is then empty instead of `[1.0, 2.0, 3.0, 4.0]`. -/
theorem swapped_file_decodes_differently :
    ((read_mrc_header_ .little sample_uninit (Impl.open sample_header sample_file)).toOption.map
        (·.header_.swap_bytes) = some false ∧
      (read_mrc_header_ .little sample_uninit (Impl.open sample_header sample_file)).toOption.map
        (·.header_.extend) = some (2, 2, 1) ∧
      (read_mrc_header_ .little sample_uninit (Impl.open sample_header sample_file)).toOption.map
        (·.header_.cell_length) = some (0x40000000, 0x40000000, 0x3F800000) ∧
      (MrcFileView .little sample_uninit sample_header sample_file).toOption.map (·.data_) =
        some [0x3F800000, 0x40000000, 0x40400000, 0x40800000]) ∧
    ((read_mrc_header_ .little sample_uninit
          (Impl.open sample_header sample_swapped_file)).toOption.map
        (·.header_.swap_bytes) = some true ∧
      (read_mrc_header_ .little sample_uninit
          (Impl.open sample_header sample_swapped_file)).toOption.map
        (·.header_.extend) = some (33554432, 33554432, 16777216) ∧
      (read_mrc_header_ .little sample_uninit
          (Impl.open sample_header sample_swapped_file)).toOption.map
        (·.header_.cell_length) = some (0, 0, 0) ∧
      (MrcFileView .little sample_uninit sample_header sample_swapped_file).toOption.map
        (·.data_) = some []) := by
  refine ⟨⟨?_, ?_, ?_, ?_⟩, ⟨?_, ?_, ?_, ?_⟩⟩ <;> decide!

/-- C3: with `swap_bytes` set, `read<int32_t>` on the bytes `01 00 00 00` returns 1, the
value it returns without swapping, and not `0x01000000`, the value of the reversed bytes;
`read<float>` on the bytes of `1.0` returns `16777216.0` (`0x4B800000`), not the value
`0x0000803F` of the reversed bytes; `read<double>` on the bytes of `1.0` returns
`2^56` (`0x4370000000000000`), not the value `0x000000000000F03F` of the reversed bytes.
Only `read<int16_t>` returns the value of the reversed bytes. -/
theorem read_swap_is_not_byte_reversal :
    (read .little .int32_t true 0 ⟨[0x01, 0x00, 0x00, 0x00], 0⟩).1 = 1 ∧
    (read .little .int32_t false 0 ⟨[0x00, 0x00, 0x00, 0x01], 0⟩).1 = 0x01000000 ∧
    (read .little .float true 0 ⟨[0x00, 0x00, 0x80, 0x3F], 0⟩).1 = 0x4B800000 ∧
    (read .little .float false 0 ⟨[0x3F, 0x80, 0x00, 0x00], 0⟩).1 = 0x0000803F ∧
    (read .little .double true 0 ⟨[0x00, 0x00, 0x00, 0x00, 0x00, 0x00, 0xF0, 0x3F], 0⟩).1 =
      0x4370000000000000 ∧
    (read .little .double false 0 ⟨[0x3F, 0xF0, 0x00, 0x00, 0x00, 0x00, 0x00, 0x00], 0⟩).1 =
      0x000000000000F03F ∧
    (read .little .int16_t true 0 ⟨[0x34, 0x12], 0⟩).1 = 0x3412 ∧
    (read .little .int16_t false 0 ⟨[0x12, 0x34], 0⟩).1 = 0x3412 := by
  refine ⟨?_, ?_, ?_, ?_, ?_, ?_, ?_, ?_⟩ <;> decide!

/-- C4: applied twice, the swap code of `read<float>` sends `0.5` (`0x3F000000`) to `0.0`
and `1.5` (`0x3FC00000`) to `1.0`; the swap code of `read<double>` sends `0.5` to `0.0`. -/
theorem swap_twice_is_not_identity :
    swap_value .float (swap_value .float 0x3F000000) = 0 ∧
    swap_value .float (swap_value .float 0x3FC00000) = 0x3F800000 ∧
    swap_value .double (swap_value .double 0x3FE0000000000000) = 0 := by
  refine ⟨?_, ?_, ?_⟩ <;> decide!

/-- C5: on a stream of at least 4 bytes, whatever `header_.swap_bytes` held before and
wherever the stream stands, after `check_swap_bytes` the flag is set if and only if the
first 4 bytes, read as an `int` in the byte order of the machine, are `<= 0` or `>= 65536`. -/
theorem check_swap_bytes_flag (host : Endian) (u : Uninit) (s : Impl)
    (h : 4 ≤ s.file_.bytes.length) :
    (check_swap_bytes host u s).header_.swap_bytes = true ↔
      (int32_at host s.file_.bytes 0 ≤ 0 ∨ int32_at host s.file_.bytes 0 ≥ 65536) := by
  rw [check_swap_bytes_eq]
  simp only [byte_order_mismatch_eq host u _ h, decide_eq_true_eq]

/-- First bytes that encode 1 give no mismatch (the flag, set before, is cleared); first
bytes that encode -1 or 100000 give a mismatch. -/
theorem check_swap_bytes_flag_witness :
    (check_swap_bytes .little sample_uninit
      ⟨⟨le_words [1], 0⟩, 0, sample_header, []⟩).header_.swap_bytes = false ∧
    (check_swap_bytes .little sample_uninit
      ⟨⟨le_words [0xFFFFFFFF], 0⟩, 0, setEMDBDefaults sample_header, []⟩).header_.swap_bytes
        = true ∧
    (check_swap_bytes .little sample_uninit
      ⟨⟨le_words [100000], 0⟩, 0, setEMDBDefaults sample_header, []⟩).header_.swap_bytes
        = true := by
  refine ⟨?_, ?_, ?_⟩
  · exact Bool.eq_false_iff.mpr (fun hb =>
      absurd ((check_swap_bytes_flag .little sample_uninit
        ⟨⟨le_words [1], 0⟩, 0, sample_header, []⟩ (by decide)).mp hb) (by decide))
  · exact (check_swap_bytes_flag .little sample_uninit
      ⟨⟨le_words [0xFFFFFFFF], 0⟩, 0, setEMDBDefaults sample_header, []⟩ (by decide)).mpr
        (by decide)
  · exact (check_swap_bytes_flag .little sample_uninit
      ⟨⟨le_words [100000], 0⟩, 0, setEMDBDefaults sample_header, []⟩ (by decide)).mpr
        (by decide)

/-- C6: whenever `read_mrc_header_` returns, `header_.crs_to_xyz` is one of the six orderings
of `0, 1, 2`; and when the decode started at offset 0 of a file of at least 76 bytes, with
`(a, b, c)` the three `int`s at bytes 64-75, it is `(a-1, b-1, c-1)` if the set
`{a-1, b-1, c-1}` equals `{0, 1, 2}` and `(0, 1, 2)` otherwise. -/
theorem header_axis_order (host : Endian) (u : Uninit) (s s' : Impl)
    (h : read_mrc_header_ host u s = .ok s') :
    (s.file_.pos = 0 → 76 ≤ s.file_.bytes.length →
      s'.header_.crs_to_xyz =
        if ({int32_at host s.file_.bytes 64 - 1, int32_at host s.file_.bytes 68 - 1,
            int32_at host s.file_.bytes 72 - 1} : Finset Int) = {0, 1, 2} then
          (int32_at host s.file_.bytes 64 - 1, int32_at host s.file_.bytes 68 - 1,
            int32_at host s.file_.bytes 72 - 1)
        else (0, 1, 2)) ∧
    s'.header_.crs_to_xyz ∈ axis_orders := by
  have hs := (read_mrc_header__ok host u s s' h).2
  have hc : s'.header_.crs_to_xyz = (front_header host u s).crs_to_xyz := by
    rw [hs, finish_header_crs_to_xyz]
    exact (header_state_front host u s).2.2.2.2.2.2.2.2
  refine ⟨?_, ?_⟩
  · intro hpos hlen
    have hf : s.file_ = ⟨s.file_.bytes, 0⟩ := by
      rw [← hpos]
    rw [hc, front_header_crs_to_xyz host u s s.file_.bytes hf hlen]
    have hv := valid_wrap32_pred (int32_at host s.file_.bytes 64)
      (int32_at host s.file_.bytes 68) (int32_at host s.file_.bytes 72)
      (int32_at_range _ _ _) (int32_at_range _ _ _) (int32_at_range _ _ _)
    by_cases hset : ({int32_at host s.file_.bytes 64 - 1, int32_at host s.file_.bytes 68 - 1,
        int32_at host s.file_.bytes 72 - 1} : Finset Int) = {0, 1, 2}
    · rw [if_pos hset, hv.1.mpr hset, hv.2 hset]
      rfl
    · have hnv : colummn_row_section_order_valid_ (wrap32 (int32_at host s.file_.bytes 64 - 1),
          wrap32 (int32_at host s.file_.bytes 68 - 1),
          wrap32 (int32_at host s.file_.bytes 72 - 1)) = false := by
        rw [Bool.eq_false_iff]
        exact fun hval => hset (hv.1.mp hval)
      rw [if_neg hset, hnv]
      rfl
  · rw [hc]
    exact front_header_crs_to_xyz_mem host u s

/-- The sample file stores the axis order `1, 2, 3`; its decode returns and gives
`(0, 1, 2)`. -/
theorem header_axis_order_witness :
    (read_mrc_header_ .little sample_uninit (Impl.open sample_header sample_file)).toOption.map
      (·.header_.crs_to_xyz) = some (0, 1, 2) := by
  obtain ⟨s', hs'⟩ := ok_of_isSome
    (read_mrc_header_ .little sample_uninit (Impl.open sample_header sample_file)) (by decide!)
  have h := (header_axis_order .little sample_uninit (Impl.open sample_header sample_file) s'
    hs').1 rfl (by decide!)
  rw [hs']
  simp only [Except.toOption, Option.map_some', h]
  decide!

/-- C7: a file whose cell angles (bytes 52-63) are `0.0, 90.0, 90.0` has a nonzero
component, yet the product test of `read_mrc_header_` holds for it, as it does for
`0.0, 0.0, 0.0`, and the decoded `cell_angles` are `90.0, 90.0, 90.0` (`0x42B40000`). -/
theorem cell_angles_with_a_zero_are_replaced :
    (float_at .little sample_angles_file 52, float_at .little sample_angles_file 56,
      float_at .little sample_angles_file 60) = (0, 0x42B40000, 0x42B40000) ∧
    cell_angles_unset (0, 0x42B40000, 0x42B40000) = true ∧
    cell_angles_unset (0, 0, 0) = true ∧
    (read_mrc_header_ .little sample_uninit
        (Impl.open sample_header sample_angles_file)).toOption.map (·.header_.cell_angles) =
      some (0x42B40000, 0x42B40000, 0x42B40000) := by
  refine ⟨?_, ?_, ?_, ?_⟩ <;> decide!

/-- C9: on the sample with NSYMBT = 80 and an extended header of 80 bytes `0x2A` before the
voxels `1.0, 2.0, 3.0, 4.0`, the decoded voxels are the first 16 bytes of the extended
header (`0x2A2A2A2A` four times): voxel `i` is the `float` at byte `1024 + 4 * i`, not the
one at byte `1024 + 80 + 4 * i`. -/
theorem extended_header_is_read_as_voxels :
    int32_at .little sample_extended_file 92 = 80 ∧
    sample_extended_file.length = 1024 + 80 + 4 * 4 ∧
    (List.range 4).map (fun i => float_at .little sample_extended_file (1024 + 80 + 4 * i)) =
      [0x3F800000, 0x40000000, 0x40400000, 0x40800000] ∧
    (MrcFileView .little sample_uninit sample_header sample_extended_file).toOption.map
      (·.data_) = some [0x2A2A2A2A, 0x2A2A2A2A, 0x2A2A2A2A, 0x2A2A2A2A] ∧
    (MrcFileView .little sample_uninit sample_header sample_extended_file).toOption.map
      (·.data_) =
      some ((List.range 4).map (fun i => float_at .little sample_extended_file (1024 + 4 * i))) := by
  refine ⟨?_, ?_, ?_, ?_, ?_⟩ <;> decide!

/-- C10, as stated, fails: the first 1024 bytes of the sample file declare no extended header
and an extent of `(2, 2, 1)`, so 16 bytes of voxels are missing; the decode returns all
the same, with a voxel array of four `0.0`. -/
theorem truncated_input_is_not_rejected :
    (sample_file.take 1024).length = 1024 ∧
    int32_at .little (sample_file.take 1024) 92 = 0 ∧
    (int32_at .little (sample_file.take 1024) 28, int32_at .little (sample_file.take 1024) 32,
      int32_at .little (sample_file.take 1024) 36) = (2, 2, 1) ∧
    (MrcFileView .little sample_uninit sample_header (sample_file.take 1024)).toOption.map
      (·.header_.extend) = some (2, 2, 1) ∧
    (MrcFileView .little sample_uninit sample_header (sample_file.take 1024)).toOption.map
      (·.data_) = some [0, 0, 0, 0] := by
  refine ⟨?_, ?_, ?_, ?_, ?_⟩ <;> decide!

/-- C10, amended: the length of the input is never a reason to fail. On every input of at
least 96 bytes (so that the extent and NSYMBT are read from the file), however short
otherwise, with NSYMBT not negative and the `int` product of the extent not negative,
`MrcFileView` returns a header with that extent and a voxel array of as many elements as
the product. -/
theorem truncated_input_is_decoded (host : Endian) (u : Uninit) (h0 : MrcHeader)
    (file : List Byte) (hlen : 96 ≤ file.length) (hk : 0 ≤ int32_at host file 92)
    (hn : 0 ≤ wrap32 (wrap32 (int32_at host file 28 * int32_at host file 32) *
      int32_at host file 36)) :
    ∃ s, MrcFileView host u h0 file = .ok s ∧
      s.header_.extend = (int32_at host file 28, int32_at host file 32, int32_at host file 36) ∧
      s.data_.length = (wrap32 (wrap32 (int32_at host file 28 * int32_at host file 32) *
        int32_at host file 36)).toNat := by
  have hf : (Impl.open h0 file).file_ = ⟨file, 0⟩ := rfl
  have hnb : 0 ≤ header_nsymbt host u (Impl.open h0 file) := by
    rw [header_nsymbt_eq host u _ file hf hlen]
    exact hk
  have hok := read_mrc_header__of_nonneg host u (Impl.open h0 file) hnb
  have hext : (finish_header (header_nsymbt host u (Impl.open h0 file)).toNat
      (header_state host u (Impl.open h0 file))).header_.extend =
      (int32_at host file 28, int32_at host file 32, int32_at host file 36) := by
    rw [finish_header_extend, (header_state_front host u (Impl.open h0 file)).2.2.2.2.2.1,
      front_header_extend host u _ file hf (by omega)]
  obtain ⟨s, h1, h2, h3⟩ := read_mrc_data__length host _ _ _ _ hext hn
  refine ⟨s, ?_, ?_, h3⟩
  · rw [MrcFileView_of_ok host u h0 file _ hok]
    exact h1
  · rw [h2]
    exact hext

/-- The first 1024 bytes of the sample file: the decode returns four voxels. -/
theorem truncated_input_is_decoded_witness :
    (MrcFileView .little sample_uninit sample_header (sample_file.take 1024)).toOption.map
      (fun s => s.data_.length) = some 4 := by
  obtain ⟨s, h1, _, h3⟩ := truncated_input_is_decoded .little sample_uninit sample_header
    (sample_file.take 1024) (by decide!) (by decide!) (by decide!)
  rw [h1]
  simp only [Except.toOption, Option.map_some', h3]
  decide!

/-- C11, as stated, fails: no `InvalidExtent` exists. A header whose extent is `(0, 2, 1)`
decodes to an empty voxel array, one whose extent is `(-1, -1, 4)` to four voxels, and one
whose extent is `(65536, 65536, 1)`, with a product that does not fit an `int`, to an empty
voxel array; the only failure is `std::length_error`, for a negative product such as that
of `(-1, 2, 1)`. -/
theorem invalid_extent_is_not_rejected :
    ((MrcFileView .little sample_uninit sample_header (sample_extent_file [0, 2, 1])).toOption.map
        (·.header_.extend) = some (0, 2, 1) ∧
      (MrcFileView .little sample_uninit sample_header (sample_extent_file [0, 2, 1])).toOption.map
        (·.data_) = some []) ∧
    ((MrcFileView .little sample_uninit sample_header
        (sample_extent_file [0xFFFFFFFF, 0xFFFFFFFF, 4])).toOption.map
        (·.header_.extend) = some (-1, -1, 4) ∧
      (MrcFileView .little sample_uninit sample_header
        (sample_extent_file [0xFFFFFFFF, 0xFFFFFFFF, 4])).toOption.map
        (·.data_) = some [0x3F800000, 0x40000000, 0x40400000, 0x40800000]) ∧
    ((MrcFileView .little sample_uninit sample_header
        (sample_extent_file [65536, 65536, 1])).toOption.map
        (·.header_.extend) = some (65536, 65536, 1) ∧
      (MrcFileView .little sample_uninit sample_header
        (sample_extent_file [65536, 65536, 1])).toOption.map (·.data_) = some []) ∧
    (MrcFileView .little sample_uninit sample_header
        (sample_extent_file [0xFFFFFFFF, 2, 1])).toOption.map (·.data_) = none := by
  refine ⟨⟨?_, ?_⟩, ⟨?_, ?_⟩, ⟨?_, ?_⟩, ?_⟩ <;> decide!

/-- C11, amended: the voxel decoder does not validate the extent. With `n` the product of the
three components as the machine forms it in `int`, `read_mrc_data_` fails, with
`std::length_error`, exactly when `n` is negative; otherwise it returns a voxel array of
`n` elements, be a component zero or negative. -/
theorem voxel_decode_by_product (host : Endian) (s : Impl) (ex ey ez : Int)
    (hext : s.header_.extend = (ex, ey, ez)) :
    (wrap32 (wrap32 (ex * ey) * ez) < 0 → read_mrc_data_ host s = .error .length_error) ∧
    (0 ≤ wrap32 (wrap32 (ex * ey) * ez) →
      ∃ s', read_mrc_data_ host s = .ok s' ∧ s'.header_ = s.header_ ∧
        s'.data_.length = (wrap32 (wrap32 (ex * ey) * ez)).toNat) := by
  refine ⟨?_, read_mrc_data__length host s ex ey ez hext⟩
  intro hn
  simp only [read_mrc_data_, hext, hn, if_true]

/-- A state with extent `(0, 2, 1)` gives no voxels, one with `(-1, -1, 4)` gives four, one
with `(-1, 2, 1)` fails. -/
theorem voxel_decode_by_product_witness :
    (read_mrc_data_ .little
        { Impl.open sample_header sample_file with
          header_ := { sample_header with extend := (0, 2, 1) } }).toOption.map
        (fun s => s.data_.length) = some 0 ∧
    (read_mrc_data_ .little
        { Impl.open sample_header sample_file with
          header_ := { sample_header with extend := (-1, -1, 4) } }).toOption.map
        (fun s => s.data_.length) = some 4 ∧
    read_mrc_data_ .little
        { Impl.open sample_header sample_file with
          header_ := { sample_header with extend := (-1, 2, 1) } } = .error .length_error := by
  refine ⟨?_, ?_, ?_⟩
  · obtain ⟨s', h1, _, h3⟩ := (voxel_decode_by_product .little
      { Impl.open sample_header sample_file with
        header_ := { sample_header with extend := (0, 2, 1) } } 0 2 1 rfl).2 (by decide)
    rw [h1]
    simp only [Except.toOption, Option.map_some', h3]
    decide
  · obtain ⟨s', h1, _, h3⟩ := (voxel_decode_by_product .little
      { Impl.open sample_header sample_file with
        header_ := { sample_header with extend := (-1, -1, 4) } } (-1) (-1) 4 rfl).2 (by decide)
    rw [h1]
    simp only [Except.toOption, Option.map_some', h3]
    decide
  · exact (voxel_decode_by_product .little
      { Impl.open sample_header sample_file with
        header_ := { sample_header with extend := (-1, 2, 1) } } (-1) 2 1 rfl).1 (by decide)

/-- C12: the header record holds 10 labels of 80 characters each. `setEMDBDefaults` leaves 10
labels of 80 characters. On a record with its 10 label slots (`std::array<std::string, 10>`),
whatever the input and whatever they held, `read_mrc_header_` has, when all label reads are
done (`header_state`, the state before the final `resize`), 10 labels of 80 characters, and
a header decode that returns hands out these labels. Without the crystallographic branch, on
a file of at least 1024 bytes read from offset 0, label `j` is the run of 80 bytes from
offset `224 + 80 * j`, as it stands in the file. -/
theorem header_labels_10_by_80 (host : Endian) (u : Uninit) (h : MrcHeader) (s : Impl)
    (h10 : s.header_.labels.length = 10) :
    ((setEMDBDefaults h).labels.length = 10 ∧ ∀ l ∈ (setEMDBDefaults h).labels, l.length = 80) ∧
    ((header_state host u s).header_.labels.length = 10 ∧
      ∀ l ∈ (header_state host u s).header_.labels, l.length = 80) ∧
    (∀ s', read_mrc_header_ host u s = .ok s' →
      s'.header_.labels = (header_state host u s).header_.labels) ∧
    (s.header_.is_crystallographic = false → s.header_.extraskew.length = 13 →
      s.header_.extra.length = 15 → s.file_.pos = 0 → 1024 ≤ s.file_.bytes.length →
      (header_state host u s).header_.labels =
        (List.range 10).map (fun j => (s.file_.bytes.drop (224 + 80 * j)).take 80)) := by
  refine ⟨⟨rfl, ?_⟩, ⟨?_, (header_state_labels host u s).2⟩, ?_, ?_⟩
  · intro l hl
    simp only [setEMDBDefaults, List.mem_cons, List.mem_replicate] at hl
    rcases hl with rfl | ⟨_, rfl⟩
    · decide
    · decide
  · rw [(header_state_labels host u s).1, h10]
  · intro s' hok
    rw [(read_mrc_header__ok host u s s' hok).2, finish_header_labels]
  · intro hc h13 h15 hpos hlen
    exact header_state_labels_verbatim host u s hc h13 h15 h10 hpos hlen

/-- The sample file, opened by the constructor: the header decode returns, and its labels are
the ten runs of 80 bytes from offset 224 of the file. -/
theorem header_labels_10_by_80_witness :
    (read_mrc_header_ .little sample_uninit (Impl.open sample_header sample_file)).toOption.map
      (fun s => s.header_.labels) =
      some ((List.range 10).map (fun j => (sample_file.drop (224 + 80 * j)).take 80)) := by
  obtain ⟨s', hs'⟩ := ok_of_isSome
    (read_mrc_header_ .little sample_uninit (Impl.open sample_header sample_file)) (by decide!)
  obtain ⟨_, _, h3, h4⟩ := header_labels_10_by_80 .little sample_uninit sample_header
    (Impl.open sample_header sample_file) rfl
  rw [hs']
  simp only [Except.toOption, Option.map_some']
  rw [h3 s' hs', h4 rfl rfl rfl rfl (by decide!)]
  rfl

/-- C13: the sample file with NSYMBT = 80 (bytes 92-95) decodes to a record whose
`extended_header` has 80 elements and whose `num_bytes_extened_header`, documented as the
size of the symbol table in bytes, is 0, the value `setEMDBDefaults` gave it: the count is
read into a local variable and never stored in the member. -/
theorem extended_header_count_is_not_stored :
    int32_at .little sample_extended_file 92 = 80 ∧
    (read_mrc_header_ .little sample_uninit
        (Impl.open sample_header sample_extended_file)).toOption.map
      (fun s => s.header_.extended_header.length) = some 80 ∧
    (read_mrc_header_ .little sample_uninit
        (Impl.open sample_header sample_extended_file)).toOption.map
      (fun s => s.header_.num_bytes_extened_header) = some 0 ∧
    (MrcFileView .little sample_uninit sample_header sample_extended_file).toOption.map
      (fun s => s.header_.num_bytes_extened_header) = some 0 := by
  refine ⟨?_, ?_, ?_, ?_⟩ <;> decide!

/-- C14: whatever the header held, `setEMDBDefaults` leaves space group 1, data mode 2,
axis order `(0, 1, 2)`, `is_crystallographic`, `has_skew_matrix` and `swap_bytes` false,
`num_labels` 1, ten labels of which the first is the EMDB placeholder `emdbCustomLabel`
(80 characters) and the nine others are 80 spaces each; and a second call changes nothing. -/
theorem setEMDBDefaults_values (h : MrcHeader) :
    (setEMDBDefaults h).space_group = 1 ∧
    (setEMDBDefaults h).mrc_data_mode = 2 ∧
    (setEMDBDefaults h).crs_to_xyz = (0, 1, 2) ∧
    (setEMDBDefaults h).is_crystallographic = false ∧
    (setEMDBDefaults h).has_skew_matrix = false ∧
    (setEMDBDefaults h).swap_bytes = false ∧
    (setEMDBDefaults h).num_labels = 1 ∧
    (setEMDBDefaults h).labels =
      chars "::::EMDataBank.org::::EMD-xxxx::::Own Data Following EMDB convention::::::::::::" ::
        List.replicate 9 (List.replicate 80 (32 : Byte)) ∧
    (chars "::::EMDataBank.org::::EMD-xxxx::::Own Data Following EMDB convention::::::::::::").length
      = 80 ∧
    setEMDBDefaults (setEMDBDefaults h) = setEMDBDefaults h := by
  refine ⟨rfl, rfl, rfl, rfl, rfl, rfl, rfl, ?_, by decide, rfl⟩
  simp only [setEMDBDefaults, emdbCustomLabel, List.cons.injEq, true_and]
  decide

/-- C15: `is_crystallographic` is never assigned by the decoder. Whatever the input and the
state, it has its initial value when `read_mrc_header_` reaches its final `resize`
(`header_state`) and in every state `read_mrc_header_` returns; `read_mrc_data_` returns it
unchanged; and every state that the constructor `MrcFileView`, which starts from
`setEMDBDefaults`, returns has it false. -/
theorem is_crystallographic_is_kept (host : Endian) (u : Uninit) (s : Impl) :
    (header_state host u s).header_.is_crystallographic = s.header_.is_crystallographic ∧
    (∀ s1, read_mrc_header_ host u s = .ok s1 →
      s1.header_.is_crystallographic = s.header_.is_crystallographic) ∧
    (∀ s2, read_mrc_data_ host s = .ok s2 →
      s2.header_.is_crystallographic = s.header_.is_crystallographic) ∧
    (∀ h0 file s', MrcFileView host u h0 file = .ok s' →
      s'.header_.is_crystallographic = false) := by
  refine ⟨(header_state_front host u s).2.1, ?_, ?_, ?_⟩
  · intro s1 h1
    rw [(read_mrc_header__ok host u s s1 h1).2, finish_header_is_crystallographic,
      (header_state_front host u s).2.1]
  · intro s2 h2
    rw [(read_mrc_data__frame host s s2 h2).1]
  · intro h0 file s' h
    obtain ⟨s1, h1, h2⟩ := MrcFileView_ok host u h0 file s' h
    rw [(read_mrc_data__frame host s1 s' h2).1, (read_mrc_header__ok host u _ s1 h1).2,
      finish_header_is_crystallographic, (header_state_front host u _).2.1]
    rfl

/-- A caller that set `is_crystallographic` finds it set after both decodes of the sample
file with skew flag 1, and the constructor on the same file returns it false. -/
theorem is_crystallographic_is_kept_witness :
    ((read_mrc_header_ .little sample_uninit
        (sample_crystallographic (sample_skew_file 1))).toOption.bind
      (fun s => (read_mrc_data_ .little s).toOption)).map
        (fun s => s.header_.is_crystallographic) = some true ∧
    (MrcFileView .little sample_uninit sample_header (sample_skew_file 1)).toOption.map
        (fun s => s.header_.is_crystallographic) = some false := by
  obtain ⟨s1, s2, h1, h2⟩ := decode_of_isSome
    (read_mrc_header_ .little sample_uninit (sample_crystallographic (sample_skew_file 1)))
    (read_mrc_data_ .little) (by decide!)
  obtain ⟨s', h3⟩ := ok_of_isSome
    (MrcFileView .little sample_uninit sample_header (sample_skew_file 1)) (by decide!)
  refine ⟨?_, ?_⟩
  · rw [h1]
    simp only [Except.toOption, Option.some_bind]
    rw [h2]
    simp only [Option.map_some', Option.some.injEq]
    rw [(is_crystallographic_is_kept .little sample_uninit s1).2.2.1 s2 h2,
      (is_crystallographic_is_kept .little sample_uninit
        (sample_crystallographic (sample_skew_file 1))).2.1 s1 h1]
    rfl
  · rw [h3]
    simp only [Except.toOption, Option.map_some', Option.some.injEq]
    exact (is_crystallographic_is_kept .little sample_uninit
      (Impl.open sample_header [])).2.2.2 _ _ s' h3

/-- C17: `check_swap_bytes` changes `header_.swap_bytes` and nothing else: the stream, with its
position, `file_size_`, `data_` and every other member of `header_` are as before. Its
verdict is that of a stream at any other position, and of any file with the same first four
bytes. The rest of `read_mrc_header_` and `read_mrc_data_` do not assign the flag: it holds
the verdict when the header decode reaches its final `resize`, in every state the header
decode returns, and in every state the voxel decode then returns. -/
theorem check_swap_bytes_frame (host : Endian) (u : Uninit) (s : Impl) :
    ((check_swap_bytes host u s).file_ = s.file_ ∧
      (check_swap_bytes host u s).file_size_ = s.file_size_ ∧
      (check_swap_bytes host u s).data_ = s.data_ ∧
      (check_swap_bytes host u s).header_ =
        { s.header_ with swap_bytes := (check_swap_bytes host u s).header_.swap_bytes }) ∧
    (∀ p, (check_swap_bytes host u { s with file_ := { s.file_ with pos := p } }).header_.swap_bytes
        = (check_swap_bytes host u s).header_.swap_bytes) ∧
    (∀ t : Impl, t.file_.bytes.take 4 = s.file_.bytes.take 4 →
      (check_swap_bytes host u t).header_.swap_bytes =
        (check_swap_bytes host u s).header_.swap_bytes) ∧
    (header_state host u s).header_.swap_bytes = (check_swap_bytes host u s).header_.swap_bytes ∧
    (∀ s1, read_mrc_header_ host u s = .ok s1 →
      s1.header_.swap_bytes = (check_swap_bytes host u s).header_.swap_bytes ∧
      ∀ s2, read_mrc_data_ host s1 = .ok s2 →
        s2.header_.swap_bytes = (check_swap_bytes host u s).header_.swap_bytes) := by
  refine ⟨⟨?_, ?_, ?_, ?_⟩, ?_, ?_, ?_, ?_⟩
  · rw [check_swap_bytes_eq]
  · rw [check_swap_bytes_eq]
  · rw [check_swap_bytes_eq]
  · rw [check_swap_bytes_eq]
  · intro p
    rw [check_swap_bytes_eq, check_swap_bytes_eq]
  · intro t ht
    rw [check_swap_bytes_eq, check_swap_bytes_eq]
    exact byte_order_mismatch_of_take host u _ _ ht
  · rw [check_swap_bytes_eq]
    exact (header_state_front host u s).1
  · intro s1 h1
    have e1 : s1.header_.swap_bytes = (check_swap_bytes host u s).header_.swap_bytes := by
      rw [(read_mrc_header__ok host u s s1 h1).2, finish_header_swap_bytes, check_swap_bytes_eq]
      exact (header_state_front host u s).1
    refine ⟨e1, ?_⟩
    intro s2 h2
    rw [(read_mrc_data__frame host s1 s2 h2).1]
    exact e1

/-- The byte-swapped sample, read from position 100: the peek leaves the position at 100 and
sets the flag, and both decodes return with the flag set. -/
theorem check_swap_bytes_frame_witness :
    (check_swap_bytes .little sample_uninit
        { Impl.open sample_header sample_swapped_file with
          file_ := ⟨sample_swapped_file, 100⟩ }).file_ = ⟨sample_swapped_file, 100⟩ ∧
    (check_swap_bytes .little sample_uninit
        { Impl.open sample_header sample_swapped_file with
          file_ := ⟨sample_swapped_file, 100⟩ }).header_.swap_bytes = true ∧
    ((read_mrc_header_ .little sample_uninit
        (Impl.open sample_header sample_swapped_file)).toOption.bind
      (fun s => (read_mrc_data_ .little s).toOption)).map
        (fun s => s.header_.swap_bytes) = some true := by
  obtain ⟨s1, s2, h1, h2⟩ := decode_of_isSome
    (read_mrc_header_ .little sample_uninit (Impl.open sample_header sample_swapped_file))
    (read_mrc_data_ .little) (by decide!)
  refine ⟨?_, ?_, ?_⟩
  · exact (check_swap_bytes_frame .little sample_uninit
      { Impl.open sample_header sample_swapped_file with
        file_ := ⟨sample_swapped_file, 100⟩ }).1.1
  · exact ((check_swap_bytes_frame .little sample_uninit
      (Impl.open sample_header sample_swapped_file)).2.1 100).trans (by decide!)
  · rw [h1]
    simp only [Except.toOption, Option.some_bind]
    rw [h2]
    simp only [Option.map_some', Option.some.injEq]
    rw [((check_swap_bytes_frame .little sample_uninit
      (Impl.open sample_header sample_swapped_file)).2.2.2.2 s1 h1).2 s2 h2]
    decide!

/-- C18: the comment on `check_swap_bytes` names the counts that are negative or larger than
65534. A first word of 0 is neither, and the flag is set; a first word of 65535 is larger
than 65534, and the flag is not set. The code tests `number_columns <= 0 || number_columns
>= 65536`. -/
theorem check_swap_bytes_differs_from_its_comment :
    (int32_at .little (sample_columns_file 0) 0 = 0 ∧
      (check_swap_bytes .little sample_uninit
        (Impl.open sample_header (sample_columns_file 0))).header_.swap_bytes = true) ∧
    (int32_at .little (sample_columns_file 65535) 0 = 65535 ∧
      (check_swap_bytes .little sample_uninit
        (Impl.open sample_header (sample_columns_file 65535))).header_.swap_bytes = false) ∧
    (int32_at .little (sample_columns_file 65536) 0 = 65536 ∧
      (check_swap_bytes .little sample_uninit
        (Impl.open sample_header (sample_columns_file 65536))).header_.swap_bytes = true) := by
  refine ⟨⟨?_, ?_⟩, ⟨?_, ?_⟩, ?_, ?_⟩ <;> decide!

/-- C20: `read<int32_t>` does not look at the byte-order flag: whatever the stream and the
object read into, it returns the same value and stream with `swap_bytes` set as without. So,
on a file of at least 1024 bytes with a non-negative NSYMBT, read from offset 0 without the
crystallographic branch and with arrays of the declared sizes, `read_mrc_header_` returns a
record whose `int` members are the words of the file in the byte order of the machine,
whatever the verdict of `check_swap_bytes`: the counts (bytes 0-11), the mode (12-15), the
origin (16-27), the extent (28-39), the axis order (from 64-75, each minus 1, or `(0, 1, 2)`
when these are no ordering), the space group (88-91), the length of the extended header
(92-95), the machine stamp (212-215) and the label count (220-223). -/
theorem read_int32_ignores_swap_bytes (host : Endian) (u : Uninit) (result : Nat) (r : Int)
    (f : FileStream) (s : Impl)
    (hc : s.header_.is_crystallographic = false)
    (h13 : s.header_.extraskew.length = 13) (h15 : s.header_.extra.length = 15)
    (hpos : s.file_.pos = 0) (hlen : 1024 ≤ s.file_.bytes.length)
    (hn : 0 ≤ int32_at host s.file_.bytes 92) :
    read host .int32_t true result f = read host .int32_t false result f ∧
    read_int host true r f = read_int host false r f ∧
    ∃ s', read_mrc_header_ host u s = .ok s' ∧
      s'.header_.num_crs = (int32_at host s.file_.bytes 0, int32_at host s.file_.bytes 4,
        int32_at host s.file_.bytes 8) ∧
      s'.header_.mrc_data_mode = int32_at host s.file_.bytes 12 ∧
      s'.header_.crs_start = (int32_at host s.file_.bytes 16, int32_at host s.file_.bytes 20,
        int32_at host s.file_.bytes 24) ∧
      s'.header_.extend = (int32_at host s.file_.bytes 28, int32_at host s.file_.bytes 32,
        int32_at host s.file_.bytes 36) ∧
      s'.header_.crs_to_xyz =
        (if !colummn_row_section_order_valid_ (wrap32 (int32_at host s.file_.bytes 64 - 1),
            wrap32 (int32_at host s.file_.bytes 68 - 1),
            wrap32 (int32_at host s.file_.bytes 72 - 1)) then (0, 1, 2)
          else (wrap32 (int32_at host s.file_.bytes 64 - 1),
            wrap32 (int32_at host s.file_.bytes 68 - 1),
            wrap32 (int32_at host s.file_.bytes 72 - 1))) ∧
      s'.header_.space_group = int32_at host s.file_.bytes 88 ∧
      s'.header_.extended_header.length = (int32_at host s.file_.bytes 92).toNat ∧
      s'.header_.machine_stamp = int32_at host s.file_.bytes 212 ∧
      s'.header_.num_labels = int32_at host s.file_.bytes 220 := by
  have hf : s.file_ = ⟨s.file_.bytes, 0⟩ := by
    rw [← hpos]
  have hns : header_nsymbt host u s = int32_at host s.file_.bytes 92 :=
    header_nsymbt_eq host u s s.file_.bytes hf (by omega)
  have hn2 : 0 ≤ header_nsymbt host u s := by
    rw [hns]
    exact hn
  obtain ⟨_, _, f3, f4, f5, f6, _, _, f9⟩ := header_state_front host u s
  obtain ⟨g1, g2, g3, g4⟩ := front_header_ints host u s s.file_.bytes hf (by omega)
  obtain ⟨b1, b2⟩ := header_state_back_ints host u s s.file_.bytes hc h13 h15 hf hlen
  obtain ⟨e1, e2, e3, e4, e5, e6⟩ :=
    finish_header_header_ints (header_nsymbt host u s).toNat (header_state host u s)
  refine ⟨read_int32_swap host true result f, read_int_swap host true r f,
    _, read_mrc_header__of_nonneg host u s hn2, ?_, ?_, ?_, ?_, ?_, ?_, ?_, ?_, ?_⟩
  · rw [e1, f3, g1]
  · rw [e2, f4, g2]
  · rw [e3, f5, g3]
  · rw [finish_header_extend, f6, front_header_extend host u s s.file_.bytes hf (by omega)]
  · rw [finish_header_crs_to_xyz, f9,
      front_header_crs_to_xyz host u s s.file_.bytes hf (by omega)]
  · rw [e4, header_state_space_group, ← g4]
    simp only [front_header]
  · rw [finish_header_extended_header, resize_length, hns]
  · rw [e5, b1]
  · rw [e6, b2]

/-- The byte-swapped sample: a mismatch is detected, and the extent `(2, 2, 1)`, the machine
stamp and the label count 1 come out as the byte-reversed values. -/
theorem read_int32_ignores_swap_bytes_witness :
    (check_swap_bytes .little sample_uninit
      (Impl.open sample_header sample_swapped_file)).header_.swap_bytes = true ∧
    (read_mrc_header_ .little sample_uninit
        (Impl.open sample_header sample_swapped_file)).toOption.map
      (fun s => (s.header_.extend, s.header_.machine_stamp, s.header_.num_labels)) =
      some ((33554432, 33554432, 16777216), 1145110528, 16777216) := by
  obtain ⟨_, _, s', h1, _, _, _, h5, _, _, _, h9, h10⟩ :=
    read_int32_ignores_swap_bytes .little sample_uninit 0 0 ⟨[], 0⟩
      (Impl.open sample_header sample_swapped_file) rfl rfl rfl rfl (by decide!) (by decide!)
  refine ⟨by decide!, ?_⟩
  rw [h1]
  simp only [Except.toOption, Option.map_some', Option.some.injEq, Prod.mk.injEq]
  rw [h5, h9, h10]
  refine ⟨?_, ?_, ?_⟩ <;> decide!

/-- C21: with `swap_bytes` set, `read<float>` on 4 bytes at the cursor whose `float` value in
the byte order of the machine has an integral part `t` within the `int32_t` range returns the
`float` conversion of the byte reversal of the two's complement pattern of `t`: the bytes of
the truncated integer are swapped, not those of the representation. So every value strictly
between `-1.0` and `1.0` is read as `0.0`, `0.5` is, and `1.0` is read as `16777216.0`
(`0x4B800000`). -/
theorem read_float_swaps_truncated_integer (host : Endian) (r : Nat) (bytes : List Byte)
    (p : Nat) (hlen : p + 4 ≤ bytes.length) :
    (∀ t : Int, (binary32.decode (float_at host bytes p)).trunc = some t →
      -2147483648 ≤ t → t < 2147483648 →
      read host .float true r ⟨bytes, p⟩ =
        (uint_to_float binary32 (byte_reversal32 (to_unsigned 32 t)), ⟨bytes, p + 4⟩)) ∧
    (FVal.lt (binary32.decode (float_at host bytes p)) (binary32.decode 0x3F800000) = true →
      FVal.lt (binary32.decode 0xBF800000) (binary32.decode (float_at host bytes p)) = true →
      read host .float true r ⟨bytes, p⟩ = (0, ⟨bytes, p + 4⟩)) ∧
    (float_at host bytes p = 0x3F000000 →
      read host .float true r ⟨bytes, p⟩ = (0, ⟨bytes, p + 4⟩)) ∧
    (float_at host bytes p = 0x3F800000 →
      read host .float true r ⟨bytes, p⟩ = (0x4B800000, ⟨bytes, p + 4⟩)) := by
  have hrd : read host .float true r ⟨bytes, p⟩ =
      (swap_value .float (float_at host bytes p), ⟨bytes, p + 4⟩) := by
    have h := read_float_mk host true r bytes p hlen
    simp only [read_float, if_true] at h
    exact h
  rw [hrd]
  refine ⟨?_, ?_, ?_, ?_⟩
  · intro t ht h1 h2
    rw [swap_value_float, float_to_int_of_trunc _ t ht h1 h2, swap_expr32_eq, byte_reversal32]
  · intro h1 h2
    rw [swap_value_float,
      float_to_int_of_trunc _ 0 (trunc_of_abs_lt_one _ h1 h2) (by decide) (by decide),
      show uint_to_float binary32 (swap_expr32 (to_unsigned 32 0)) = 0 by decide]
  · intro h
    rw [h, show swap_value .float 0x3F000000 = 0 by decide!]
  · intro h
    rw [h, show swap_value .float 0x3F800000 = 0x4B800000 by decide!]

/-- On a little-endian machine: the bytes of `2.5` are read as `33554432.0`, the conversion of
the reversal `0x02000000` of the integer 2, and the bytes of `-0.75` and of `1.0` as `0.0`
and `16777216.0`; the reversal of the representation of `1.0` would be `0x0000803F`. -/
theorem read_float_swaps_truncated_integer_witness :
    (read .little .float true 0 ⟨le_words [0x40200000], 0⟩).1 = 0x4C000000 ∧
    (read .little .float true 0 ⟨le_words [0xBF400000], 0⟩).1 = 0 ∧
    (read .little .float true 0 ⟨le_words [0x3F800000], 0⟩).1 = 0x4B800000 ∧
    byte_reversal32 0x3F800000 = 0x0000803F := by
  refine ⟨?_, ?_, ?_, by decide⟩
  · rw [(read_float_swaps_truncated_integer .little 0 (le_words [0x40200000]) 0 (by decide)).1 2
      (by decide) (by decide) (by decide)]
    decide!
  · rw [(read_float_swaps_truncated_integer .little 0 (le_words [0xBF400000]) 0
      (by decide)).2.1 (by decide!) (by decide!)]
  · rw [(read_float_swaps_truncated_integer .little 0 (le_words [0x3F800000]) 0
      (by decide)).2.2.2 (by decide)]

/-- C22: two files of the same length that differ only in bytes 12-15, the data-mode word,
are decoded alike by the constructor: both decodes throw `std::length_error`, or both return,
with the same voxel array and headers that are equal once `mrc_data_mode` is set to the same
value in both; and a decode that returns has stored in `mrc_data_mode` the `int` at bytes
12-15, whatever its value. The voxels are read as `float`s whatever the mode. -/
theorem voxels_do_not_depend_on_mode (host : Endian) (u : Uninit) (h0 : MrcHeader)
    (b1 b2 : List Byte) (hlen : b1.length = b2.length) (h16 : 16 ≤ b1.length)
    (h12 : b1.take 12 = b2.take 12) (hd : b1.drop 16 = b2.drop 16) :
    (MrcFileView host u h0 b2).map (fun s => ({ s.header_ with mrc_data_mode := 0 }, s.data_)) =
      (MrcFileView host u h0 b1).map (fun s => ({ s.header_ with mrc_data_mode := 0 }, s.data_)) ∧
    (∀ s, MrcFileView host u h0 b1 = .ok s → s.header_.mrc_data_mode = int32_at host b1 12) ∧
    (∀ s, MrcFileView host u h0 b2 = .ok s → s.header_.mrc_data_mode = int32_at host b2 12) := by
  refine ⟨?_, fun s h => MrcFileView_mrc_data_mode host u h0 b1 s h16 h,
    fun s h => MrcFileView_mrc_data_mode host u h0 b2 s (by omega) h⟩
  rcases MrcFileView_same_but_mode host u h0 b1 b2 hlen h16 h12 hd with ⟨e1, e2⟩ | ⟨s, t, e1, e2, hst⟩
  · rw [e1, e2]
  · rw [e1, e2]
    obtain ⟨_, _, hdat, hh⟩ := hst
    simp only [Except.map, hdat]
    rw [hh]

/-- The sample file (mode 2) and the sample file with mode 7 in bytes 12-15: the second decode
returns mode 7 and the four voxels `1.0, 2.0, 3.0, 4.0` of the first. -/
theorem voxels_do_not_depend_on_mode_witness :
    (MrcFileView .little sample_uninit sample_header (sample_mode_file 7)).map
        (fun s => ({ s.header_ with mrc_data_mode := 0 }, s.data_)) =
      (MrcFileView .little sample_uninit sample_header sample_file).map
        (fun s => ({ s.header_ with mrc_data_mode := 0 }, s.data_)) ∧
    (MrcFileView .little sample_uninit sample_header (sample_mode_file 7)).toOption.map
        (fun s => (s.header_.mrc_data_mode, s.data_)) =
      some (7, [0x3F800000, 0x40000000, 0x40400000, 0x40800000]) :=
  ⟨(voxels_do_not_depend_on_mode .little sample_uninit sample_header sample_file
      (sample_mode_file 7) (by decide!) (by decide!) (by decide!) (by decide!)).1, by decide!⟩

/-- C23: without byte swapping, with a positive extent whose product `n` fits an `int`, on an
empty `data_` (as the constructor leaves it) and a stream that ends after `k < n` complete
voxels, `read_mrc_data_` returns: `data_` has `n` elements, the first `k` are the `float`s of
the file and the other `n - k` are `0.0`; the stream is at its end. -/
theorem short_payload_is_zero_filled (host : Endian) (s : Impl) (bytes : List Byte) (p k : Nat)
    (ex ey ez : Int) (hsw : s.header_.swap_bytes = false)
    (hext : s.header_.extend = (ex, ey, ez)) (hfile : s.file_ = ⟨bytes, p⟩) (hdata : s.data_ = [])
    (hx : 0 < ex) (hy : 0 < ey) (hz : 0 < ez) (hprod : ex * ey * ez < 2147483648)
    (hend : bytes.length = p + 4 * k) (hk : k < (ex * ey * ez).toNat) :
    read_mrc_data_ host s = .ok
      { s with
        data_ := (List.range k).map (fun i => float_at host bytes (p + 4 * i)) ++
          List.replicate ((ex * ey * ez).toNat - k) 0
        file_ := ⟨bytes, p + 4 * k⟩ } ∧
    ((List.range k).map (fun i => float_at host bytes (p + 4 * i)) ++
      List.replicate ((ex * ey * ez).toNat - k) 0).length = (ex * ey * ez).toNat := by
  have hxy : 0 < ex * ey := Int.mul_pos hx hy
  have hxy2 : ex * ey < 2147483648 := by nlinarith
  have hw1 : wrap32 (ex * ey) = ex * ey := wrap32_of_range _ (by omega) hxy2
  have hxyz : 0 < ex * ey * ez := Int.mul_pos hxy hz
  have hw2 : wrap32 (ex * ey * ez) = ex * ey * ez := wrap32_of_range _ (by omega) hprod
  have hnn : ¬ (ex * ey * ez < 0) := by omega
  refine ⟨?_, ?_⟩
  · simp only [read_mrc_data_, hsw, hext, hfile, hdata, hw1, hw2, hnn, if_false, resize_nil,
      read_floats_short host _ k bytes p hend (Nat.le_of_lt hk)]
  · simp only [List.length_append, List.length_map, List.length_range, List.length_replicate]
    omega

/-- The sample file cut after its second voxel: the extent `(2, 2, 1)` asks for four voxels,
the decode returns `1.0, 2.0, 0.0, 0.0`. -/
theorem short_payload_is_zero_filled_witness :
    (read_mrc_data_ .little
      { Impl.open sample_header (sample_file.take 1032) with
        file_ := ⟨sample_file.take 1032, 1024⟩
        header_ := { setEMDBDefaults sample_header with extend := (2, 2, 1) } }).toOption.map
      (fun s => s.data_) = some [0x3F800000, 0x40000000, 0, 0] := by
  rw [(short_payload_is_zero_filled .little
    { Impl.open sample_header (sample_file.take 1032) with
      file_ := ⟨sample_file.take 1032, 1024⟩
      header_ := { setEMDBDefaults sample_header with extend := (2, 2, 1) } }
    (sample_file.take 1032) 1024 2 2 2 1 rfl rfl rfl rfl (by decide) (by decide) (by decide)
    (by decide) (by decide!) (by decide)).1]
  simp only [Except.toOption, Option.map_some', Option.some.injEq]
  decide!

end Mrc
